import Mathlib

/-!
Verification of the seoscan streaming job engine and sitemap crawler
(`src/server.js`) via a shallow embedding.

Network and HTML/XML extraction are external collaborators (spec section 1:
Fetcher and PageAnalyzer are outside the core); they are modelled by oracle
parameters giving, per request, the abstract outcome (timeout, network error,
or a response with status / content-type / extracted page fields).  Everything
else — the result construction of `checkUrl`, URL normalisation, the worker pool
`runStreaming`, job lifecycle (`/api/check-job`, `/api/check-cancel`,
`/api/check-events`, `pushJobEvent`), and the sitemap crawl loop
(`/api/sitemap-stream`) — is translated directly from the source.

Concurrency of the worker pool is modelled as a fine-grained interleaving
transition system: each worker is a program counter (idle at the loop head,
fetching an index, delivering a result, or exited), and the shared state is
the job record plus the shared claim cursor `i`.  This is a superset of the
behaviours of the single-threaded cooperative event loop of Node.js, so
invariants proved over all interleavings hold for the real scheduler.
-/

namespace Seoscan

/-! ## CheckResult and checkUrl (src/server.js lines 108-162) -/

/-- One outcome per URL, mirroring the `out` object literal of `checkUrl`
(src/server.js lines 109-124).  JS `null` becomes `none`. -/
structure CheckResult where
  url : String
  status : Option Nat
  ok : Bool
  responseTimeMs : Option Nat
  hasH1 : Bool
  h1Count : Nat
  h1Length : Nat
  multipleH1 : Bool
  missingH1 : Bool
  h1 : Option String
  title : Option String
  metaDescription : Option String
  canonical : Option String
  error : Option String
  deriving Repr, DecidableEq

/-- Extracted page fields, the PageAnalyzer collaborator boundary: what the
cheerio queries in `checkUrl` return on the fetched body.  `titleText` is
`$(title).first().text()` (empty string when absent), `metaName` and `metaOg`
are the two `attr(content)` lookups (`none` = attribute absent), likewise
`canonicalHref`; `h1Count` is `$(h1).length` and `h1First` is
`$(h1).first().text()`. -/
structure PageData where
  titleText : String
  metaName : Option String
  metaOg : Option String
  canonicalHref : Option String
  h1Count : Nat
  h1First : String
  deriving Repr, DecidableEq

/-- Outcome of one `fetchWithTimeout` call (the Fetcher collaborator):
timeout (AbortError), a network error carrying `err.message`, or a response
with status, `res.ok`, content-type header (empty string when missing, as in
`res.headers.get(content-type) or ''`) and the extracted page data. -/
inductive FetchOutcome where
  | timeout
  | netError (msg : String)
  | response (status : Nat) (ok : Bool) (contentType : String) (page : PageData)
  deriving Repr, DecidableEq

/-- Whether one character list starts with another. -/
def charsStartWith : List Char → List Char → Bool
  | _, [] => true
  | [], _ :: _ => false
  | h :: hs, n :: ns => h == n && charsStartWith hs ns

/-- Whether `needle` occurs contiguously inside the haystack. -/
def charsContain : List Char → List Char → Bool
  | [], needle => needle.isEmpty
  | h :: hs, needle => charsStartWith (h :: hs) needle || charsContain hs needle

/-- JS `String.prototype.includes`: `s.includes(pat)`, on the underlying
character lists. -/
def strIncludes (s pat : String) : Bool :=
  charsContain s.data pat.data

/-- JS `a || b` on two nullable strings (empty string is falsy). -/
def jsOrStr (a b : Option String) : Option String :=
  match a with
  | some s => if s = "" then b else some s
  | none => b

/-- JS truthiness filter on a nullable string: `x ? ... : null` where the
empty string is falsy. -/
def strOptTruthy (a : Option String) : Option String :=
  match a with
  | some s => if s = "" then none else some s
  | none => none

/-- `checkUrl` (src/server.js lines 108-162) as a pure function of the URL,
the fetch outcome, and the elapsed wall-clock time recorded by the `finally`
block.  The initial `out` literal, the non-HTML early return, and the full
HTML analysis branch are translated field by field. -/
def checkUrl (url : String) (o : FetchOutcome) (elapsedMs : Nat) : CheckResult :=
  let out : CheckResult :=
    { url := url, status := none, ok := false, responseTimeMs := none,
      hasH1 := false, h1Count := 0, h1Length := 0, multipleH1 := false,
      missingH1 := true, h1 := none, title := none, metaDescription := none,
      canonical := none, error := none }
  match o with
  | FetchOutcome.timeout =>
      { out with error := some "timeout", responseTimeMs := some elapsedMs }
  | FetchOutcome.netError msg =>
      { out with error := some msg, responseTimeMs := some elapsedMs }
  | FetchOutcome.response status okFlag contentType page =>
      if strIncludes contentType "text/html" = false then
        { out with status := some status, ok := okFlag,
                   error := some ("non-html content-type: " ++ contentType),
                   responseTimeMs := some elapsedMs }
      else
        let titleText := page.titleText.trim
        let metaDesc := jsOrStr page.metaName page.metaOg
        let base :=
          { out with status := some status, ok := okFlag,
                     title := if titleText = "" then none else some titleText,
                     metaDescription := (strOptTruthy metaDesc).map String.trim,
                     canonical := (strOptTruthy page.canonicalHref).map String.trim,
                     h1Count := page.h1Count,
                     multipleH1 := decide (page.h1Count > 1),
                     missingH1 := decide (page.h1Count = 0),
                     responseTimeMs := some elapsedMs }
        if page.h1Count > 0 then
          let h1Text := page.h1First.trim
          { base with hasH1 := true, h1 := some h1Text, h1Length := h1Text.length }
        else base

/-- The scheme test of the worker loop: the case-insensitive regex
`^https?://` (src/server.js lines 172 and 210). -/
def hasHttpScheme (s : String) : Bool :=
  s.toLower.startsWith "http://" || s.toLower.startsWith "https://"

/-- Worker-side URL normalisation: prefix `http://` when no scheme matches
(src/server.js lines 172 and 210). -/
def normalizeUrl (s : String) : String :=
  if hasHttpScheme s then s else "http://" ++ s

/-! ## Sitemap crawler (src/server.js lines 395-483) -/

/-- Outcome of fetching one sitemap document URL: a thrown fetch error
(network error or timeout, carrying `err.message`), a non-ok HTTP status, or
a successful fetch whose body parses (via `parseSitemapXml`, the external XML
extraction) into leaf page locs and nested sitemap locs. -/
inductive SmFetch where
  | fail (msg : String)
  | notOk (status : Nat)
  | okDoc (urlLocs : List String) (sitemapLocs : List String)
  deriving Repr, DecidableEq

/-- Events written to the sitemap-stream response. -/
inductive SmEvent where
  | batch (urls : List String) (total : Nat)
  | crawlDone (total : Nat)
  | failed (error : String)
  deriving Repr, DecidableEq

/-- Crawl-local state (spec CrawlState): visited sitemap set, seen page-URL
set, FIFO queue of (sitemap URL, depth), running total; plus the emitted
event list and the log of sitemap document URLs actually fetched (in fetch
order), which the source performs but does not store. -/
structure CrawlSt where
  visited : List String
  seen : List String
  queue : List (String × Nat)
  total : Nat
  events : List SmEvent
  fetches : List String
  deriving Repr, DecidableEq

/-- The dedup loop over one document's `urlLocs` (src/server.js lines
458-463): skip falsy (empty) locs and locs already seen, adding each kept loc
to the seen set as it goes.  Returns the `newUrls` list. -/
def dedupNew (seen : List String) : List String → List String
  | [] => []
  | loc :: rest =>
      if loc = "" || seen.contains loc then dedupNew seen rest
      else loc :: dedupNew (seen ++ [loc]) rest

/-- The chunking loop (src/server.js lines 465-470), with an inner fuel
argument (an upper bound on the list length) making the recursion
structural. -/
def chunksOfFuel (n : Nat) : Nat → List α → List (List α)
  | _, [] => []
  | 0, l => [l]
  | fuel + 1, x :: xs =>
      match n with
      | 0 => [x :: xs]
      | m + 1 => (x :: xs).take (m + 1) :: chunksOfFuel (m + 1) fuel ((x :: xs).drop (m + 1))

/-- The chunking loop (src/server.js lines 465-470): slices of size `n`. -/
def chunksOf (n : Nat) (l : List α) : List (List α) :=
  chunksOfFuel n l.length l

/-- Emitting the batches of one document: for each chunk, bump the running
total and append a `batch` event carrying the new total. -/
def emitBatches : List (List String) → Nat → List SmEvent → Nat × List SmEvent
  | [], total, evs => (total, evs)
  | b :: bs, total, evs =>
      emitBatches bs (total + b.length) (evs ++ [SmEvent.batch b (total + b.length)])

/-- The crawl `while` loop (src/server.js lines 433-476), fuel-indexed.
Returns the final crawl state and whether the loop ran to a terminal event
(`true`) rather than exhausting fuel.  The client-disconnect flag `closed`
is modelled as permanently false (the claims under verification condition on
runs without cancellation; a disconnect only stops the loop earlier). -/
def crawlLoop (oracle : String → SmFetch) (maxDepth : Nat) :
    Nat → CrawlSt → CrawlSt × Bool
  | 0, st => (st, false)
  | fuel + 1, st =>
      match st.queue with
      | [] => ({ st with events := st.events ++ [SmEvent.crawlDone st.total] }, true)
      | (url, depth) :: rest =>
          if st.visited.contains url then
            crawlLoop oracle maxDepth fuel { st with queue := rest }
          else
            match oracle url with
            | SmFetch.fail msg =>
                ({ st with visited := st.visited ++ [url], fetches := st.fetches ++ [url],
                           queue := rest,
                           events := st.events ++ [SmEvent.failed msg] }, true)
            | SmFetch.notOk status =>
                ({ st with visited := st.visited ++ [url], fetches := st.fetches ++ [url],
                           queue := rest,
                           events := st.events ++
                             [SmEvent.failed ("sitemap fetch failed: " ++ toString status)] }, true)
            | SmFetch.okDoc urlLocs sitemapLocs =>
                crawlLoop oracle maxDepth fuel
                  { visited := st.visited ++ [url],
                    seen := st.seen ++ dedupNew st.seen urlLocs,
                    queue :=
                      if depth < maxDepth then
                        rest ++ (sitemapLocs.filter
                            (fun loc => !(st.visited ++ [url]).contains loc)).map
                          (fun loc => (loc, depth + 1))
                      else rest,
                    total := (emitBatches (chunksOf 200 (dedupNew st.seen urlLocs))
                        st.total st.events).1,
                    events := (emitBatches (chunksOf 200 (dedupNew st.seen urlLocs))
                        st.total st.events).2,
                    fetches := st.fetches ++ [url] }

/-- Initial crawl state for a validated root sitemap URL. -/
def initCrawl (root : String) : CrawlSt :=
  { visited := [], seen := [], queue := [(root, 0)], total := 0, events := [], fetches := [] }

/-- The result of the JS runtime `new URL` constructor: the normalised
protocol (lowercase, colon-terminated) and the serialisation `toString()`. -/
structure ParsedURL where
  protocol : String
  href : String
  deriving Repr, DecidableEq

/-- The `/api/sitemap-stream` handler (src/server.js lines 395-483):
validation of the `url` query parameter, then the crawl loop.  `parseURL`
models the WHATWG `new URL` constructor (`none` = it throws); the protocol
check is the regex test `^https?:$`. -/
def sitemapStream (rawQuery : Option String) (parseURL : String → Option ParsedURL)
    (oracle : String → SmFetch) (maxDepth fuel : Nat) : CrawlSt × Bool :=
  let rawUrl := (rawQuery.getD "").trim
  if rawUrl = "" then
    ({ visited := [], seen := [], queue := [], total := 0,
       events := [SmEvent.failed "sitemap url required"], fetches := [] }, true)
  else
    match parseURL rawUrl with
    | none =>
        ({ visited := [], seen := [], queue := [], total := 0,
           events := [SmEvent.failed "invalid sitemap url"], fetches := [] }, true)
    | some parsed =>
        if parsed.protocol = "http:" || parsed.protocol = "https:" then
          crawlLoop oracle maxDepth fuel (initCrawl parsed.href)
        else
          ({ visited := [], seen := [], queue := [], total := 0,
             events := [SmEvent.failed "invalid sitemap url"], fetches := [] }, true)

/-! ## Job engine (src/server.js lines 46-340) -/

/-- Events of a job's append-only log (`job.events`): `start{total}`,
`progress{index, result, processed, total}`, `done{processed, total}`,
`failed{error}`.  Heartbeat pings are written directly to each response and
are neither logged nor replayed, so they do not appear here. -/
inductive Event where
  | start (total : Nat)
  | progress (index : Nat) (result : CheckResult) (processed : Nat) (total : Nat)
  | jobDone (processed : Nat) (total : Nat)
  | failed (error : String)
  deriving Repr, DecidableEq

/-- Whether an event is terminal (the `event === done || event === failed`
test of `pushJobEvent`). -/
def Event.isTerminal : Event → Bool
  | Event.jobDone _ _ => true
  | Event.failed _ => true
  | _ => false

/-- The job record of `createJob` (src/server.js lines 46-60).  Clients are
identified by plain numeric ids; the TTL cleanup timer is outside the model
(no claim depends on eviction timing). -/
structure JobState where
  total : Nat
  processed : Nat
  results : List (Option CheckResult)
  events : List Event
  clients : List Nat
  done : Bool
  cancelled : Bool
  deriving Repr, DecidableEq

/-- `pushJobEvent` (src/server.js lines 69-80) restricted to the job record:
append to the log; a terminal event ends every subscribed response and clears
the client set.  The fan-out to observers is layered on top in `sysPush`. -/
def pushEvent (job : JobState) (e : Event) : JobState :=
  { job with events := job.events ++ [e],
             clients := if e.isTerminal then [] else job.clients }

/-- The mutation performed by `/api/check-cancel` on a looked-up job
(src/server.js lines 333-338): set the cancellation flag; if the job is not
yet terminal, mark it done and push `failed{error:"cancelled"}`. -/
def cancelJob (job : JobState) : JobState :=
  let j := { job with cancelled := true }
  if j.done then j
  else pushEvent { j with done := true } (Event.failed "cancelled")

/-- The `/api/check-cancel` endpoint (src/server.js lines 329-340) as a
function of the registry lookup result: unknown job id answers `{ok:false}`;
a known job is cancelled (idempotently on the log) and answers `{ok:true}`. -/
def checkCancel (lookup : Option JobState) : Bool × Option JobState :=
  match lookup with
  | none => (false, none)
  | some job => (true, some (cancelJob job))

/-- One observer connection: the events written to it so far, whether its
response has been ended, and whether the close was client-initiated
(`req.on(close)`) rather than a terminal-event `res.end()`. -/
structure ObsState where
  received : List Event
  closed : Bool
  detached : Bool
  deriving Repr, DecidableEq

/-- Program counter of one worker of `runStreaming` (src/server.js lines
204-235): at the loop head, awaiting `checkUrl` for a claimed index, holding
a result at the post-fetch `shouldStop` check and `onResult` call, or exited. -/
inductive WorkerPC where
  | idle
  | fetching (idx : Nat)
  | delivering (idx : Nat) (result : CheckResult)
  | exited
  deriving Repr, DecidableEq

/-- Whole-system state for one `/api/check-job` run: the job record, the
shared claim cursor `i`, the worker program counters, the observers keyed by
id, and whether the `.then`/`.catch` continuation of `runStreaming` has run. -/
structure SysState where
  job : JobState
  cursor : Nat
  workers : List WorkerPC
  observers : List (Nat × ObsState)
  finished : Bool
  deriving Repr, DecidableEq

/-- Parameters of one job run: the submitted URL list, the requested
concurrency, and the Fetcher oracle giving the outcome and elapsed time of
the check of each claimed index (per-index, since two requests for the same
URL may behave differently). -/
structure Params where
  urls : List String
  concurrency : Nat
  oracle : Nat → FetchOutcome
  elapsed : Nat → Nat

/-- The worker-pool size `max(1, min(concurrency, urls.length))`
(src/server.js line 237). -/
def Params.poolSize (p : Params) : Nat :=
  max 1 (min p.concurrency p.urls.length)

/-- The CheckResult produced for claimed index `idx`: `checkUrl` applied to
the normalised URL and the oracle outcome (src/server.js lines 209-213).
`checkUrl` is total, so the worker's `catch` block (lines 214-231) is
unreachable in the model and workers never reject. -/
def Params.resultFor (p : Params) (idx : Nat) : CheckResult :=
  checkUrl (normalizeUrl (p.urls.getD idx "")) (p.oracle idx) (p.elapsed idx)

/-- Fan-out of one event to the observers currently subscribed (the loop of
`pushJobEvent`, src/server.js lines 71-76): each client's response receives
the event, and a terminal event ends the response. -/
def broadcast (obs : List (Nat × ObsState)) (clients : List Nat) (e : Event) :
    List (Nat × ObsState) :=
  obs.map fun io =>
    if io.1 ∈ clients then
      (io.1, { io.2 with received := io.2.received ++ [e],
                         closed := io.2.closed || e.isTerminal })
    else io

/-- `pushJobEvent` at system level: fan out to the subscribed observers and
append to the log (clearing the client set on a terminal event). -/
def sysPush (s : SysState) (e : Event) : SysState :=
  { s with job := pushEvent s.job e,
           observers := broadcast s.observers s.job.clients e }

/-- The `onResult` callback of `/api/check-job` (src/server.js lines
278-282) in the not-cancelled case, fused with the worker returning to its
loop head: store the result positionally, bump `processed`, and push the
`progress` event carrying the post-increment count. -/
def deliverSys (s : SysState) (k idx : Nat) (r : CheckResult) : SysState :=
  let s1 := { s with workers := s.workers.set k WorkerPC.idle }
  let job := { s1.job with results := s1.job.results.set idx (some r),
                           processed := s1.job.processed + 1 }
  sysPush { s1 with job := job } (Event.progress idx r job.processed job.total)

/-- `/api/check-cancel` at system level (src/server.js lines 333-338). -/
def cancelSys (s : SysState) : SysState :=
  let s1 := { s with job := { s.job with cancelled := true } }
  if s1.job.done then s1
  else
    sysPush { s1 with job := { s1.job with done := true } } (Event.failed "cancelled")

/-- The `.then` continuation of `runStreaming` in `/api/check-job`
(src/server.js lines 283-293): if a terminal transition already happened it
is a no-op; otherwise the job is marked done and `failed{cancelled}` or
`done{processed,total}` is pushed. -/
def finishSys (s : SysState) : SysState :=
  let s1 := { s with finished := true }
  if s1.job.done then s1
  else if s1.job.cancelled then
    sysPush { s1 with job := { s1.job with done := true } } (Event.failed "cancelled")
  else
    sysPush { s1 with job := { s1.job with done := true } }
      (Event.jobDone s1.job.processed s1.job.total)

/-- `/api/check-events` attaching observer `oid` (src/server.js lines
301-327): replay the whole log into the fresh connection; if the job is
terminal, end the connection without subscribing, else add it to the client
set. -/
def attachSys (s : SysState) (oid : Nat) : SysState :=
  let o : ObsState := { received := s.job.events, closed := s.job.done, detached := false }
  if s.job.done then { s with observers := s.observers ++ [(oid, o)] }
  else { s with observers := s.observers ++ [(oid, o)],
                job := { s.job with clients := s.job.clients ++ [oid] } }

/-- A client-initiated disconnect (src/server.js lines 312-315): remove the
response from the client set and mark the observer closed/detached. -/
def detachSys (s : SysState) (oid : Nat) : SysState :=
  { s with job := { s.job with clients := s.job.clients.filter (fun c => c ≠ oid) },
           observers := s.observers.map fun io =>
             if io.1 = oid then (io.1, { io.2 with closed := true, detached := true })
             else io }

/-- State right after `/api/check-job` created the job and pushed `start`
(src/server.js lines 274-276), with the worker pool spawned. -/
def initState (p : Params) : SysState :=
  { job := { total := p.urls.length, processed := 0,
             results := List.replicate p.urls.length none,
             events := [Event.start p.urls.length],
             clients := [], done := false, cancelled := false },
    cursor := 0,
    workers := List.replicate p.poolSize WorkerPC.idle,
    observers := [], finished := false }

/-- Fine-grained interleaving semantics of one `/api/check-job` run together
with the concurrently served cancel/subscribe/disconnect requests.  Worker
steps follow the loop of `runStreaming` (src/server.js lines 204-235):
the pre-claim `shouldStop` exit, claiming the cursor (which increments even
when past the end), the claim-exhausted exit, completion of `checkUrl`, the
post-fetch `shouldStop` discard, and delivery via `onResult`. -/
inductive Step (p : Params) : SysState → SysState → Prop where
  | claimStop {s : SysState} (k : Nat)
      (hw : s.workers[k]? = some WorkerPC.idle)
      (hc : s.job.cancelled = true) :
      Step p s { s with workers := s.workers.set k WorkerPC.exited }
  | claimIdx {s : SysState} (k : Nat)
      (hw : s.workers[k]? = some WorkerPC.idle)
      (hc : s.job.cancelled = false)
      (hlt : s.cursor < p.urls.length) :
      Step p s { s with cursor := s.cursor + 1,
                        workers := s.workers.set k (WorkerPC.fetching s.cursor) }
  | claimOut {s : SysState} (k : Nat)
      (hw : s.workers[k]? = some WorkerPC.idle)
      (hc : s.job.cancelled = false)
      (hge : p.urls.length ≤ s.cursor) :
      Step p s { s with cursor := s.cursor + 1,
                        workers := s.workers.set k WorkerPC.exited }
  | fetchDone {s : SysState} (k idx : Nat)
      (hw : s.workers[k]? = some (WorkerPC.fetching idx)) :
      Step p s { s with workers := s.workers.set k (WorkerPC.delivering idx (p.resultFor idx)) }
  | deliverDrop {s : SysState} (k idx : Nat) (r : CheckResult)
      (hw : s.workers[k]? = some (WorkerPC.delivering idx r))
      (hc : s.job.cancelled = true) :
      Step p s { s with workers := s.workers.set k WorkerPC.exited }
  | deliverStep {s : SysState} (k idx : Nat) (r : CheckResult)
      (hw : s.workers[k]? = some (WorkerPC.delivering idx r))
      (hc : s.job.cancelled = false) :
      Step p s (deliverSys s k idx r)
  | cancelStep {s : SysState} :
      Step p s (cancelSys s)
  | finishStep {s : SysState}
      (hall : ∀ w ∈ s.workers, w = WorkerPC.exited)
      (hf : s.finished = false) :
      Step p s (finishSys s)
  | attachStep {s : SysState} (oid : Nat)
      (hfresh : ∀ io ∈ s.observers, io.1 ≠ oid) :
      Step p s (attachSys s oid)
  | detachStep {s : SysState} (oid : Nat) :
      Step p s (detachSys s oid)

/-- States reachable from the start of a job run by any interleaving. -/
inductive Reachable (p : Params) : SysState → Prop where
  | init : Reachable p (initState p)
  | step {s s' : SysState} : Reachable p s → Step p s s' → Reachable p s'

/-! ## Invariant of the job transition system -/

/-- The URL index a worker is currently responsible for, if any. -/
def WorkerPC.heldIdx : WorkerPC → Option Nat
  | WorkerPC.fetching i => some i
  | WorkerPC.delivering i _ => some i
  | _ => none

/-- Number of non-empty result slots. -/
def countSome (l : List (Option CheckResult)) : Nat := l.countP Option.isSome

/-- Only progress events. -/
def progressOnly (l : List Event) : Prop :=
  ∀ e ∈ l, ∃ i r pr t, e = Event.progress i r pr t

/-- Shape of a job's event log: a `start` event carrying the URL count, then
one `progress` event per delivered result, and — exactly when the `done`
flag is set — a single trailing terminal event. -/
def EventsShape (p : Params) (job : JobState) : Prop :=
  ∃ ps, progressOnly ps ∧ ps.length = job.processed ∧
    ((job.done = false ∧ job.events = Event.start p.urls.length :: ps) ∨
     (job.done = true ∧ ∃ t, t.isTerminal = true ∧
        job.events = Event.start p.urls.length :: ps ++ [t]))

/-- Master invariant of the job run, preserved by every interleaving step. -/
structure Inv (p : Params) (s : SysState) : Prop where
  len_results : s.job.results.length = p.urls.length
  total_eq : s.job.total = p.urls.length
  processed_count : s.job.processed = countSome s.job.results
  slot_content : ∀ idx r, s.job.results[idx]? = some (some r) → r = p.resultFor idx
  slot_written_lt : ∀ idx r, s.job.results[idx]? = some (some r) → idx < s.cursor
  events_shape : EventsShape p s.job
  held_lt : ∀ (k : Nat) (w : WorkerPC) (idx : Nat), s.workers[k]? = some w →
      w.heldIdx = some idx →
      idx < p.urls.length ∧ idx < s.cursor ∧ s.job.results[idx]? = some none
  held_uniq : ∀ (k1 k2 : Nat) (w1 w2 : WorkerPC) (idx : Nat),
      s.workers[k1]? = some w1 → s.workers[k2]? = some w2 →
      w1.heldIdx = some idx → w2.heldIdx = some idx → k1 = k2
  held_result : ∀ (k idx : Nat) (r : CheckResult),
      s.workers[k]? = some (WorkerPC.delivering idx r) → r = p.resultFor idx
  coverage : s.job.cancelled = false → ∀ idx, idx < s.cursor → idx < p.urls.length →
      (∃ r, s.job.results[idx]? = some (some r)) ∨
      (∃ (k : Nat) (w : WorkerPC), s.workers[k]? = some w ∧ w.heldIdx = some idx)
  cancel_done : s.job.cancelled = true → s.job.done = true
  done_quiesced : s.job.done = true →
      s.job.cancelled = true ∨ (s.finished = true ∧ ∀ w ∈ s.workers, w = WorkerPC.exited)
  exited_cursor : s.job.cancelled = false →
      (∃ (k : Nat), s.workers[k]? = some WorkerPC.exited) → p.urls.length < s.cursor
  workers_len : s.workers.length = p.poolSize
  obs_client : ∀ io ∈ s.observers, io.1 ∈ s.job.clients →
      io.2.received = s.job.events ∧ io.2.closed = false
  obs_closed : ∀ io ∈ s.observers, io.2.closed = true →
      io.2.detached = true ∨ (io.2.received = s.job.events ∧ s.job.done = true)
  done_noclients : s.job.done = true → s.job.clients = []

/-! ## Step lemmas for the claims -/

/-- Any interleaving suffix starting at a given state. -/
inductive ReachFrom (p : Params) : SysState → SysState → Prop where
  | refl (s : SysState) : ReachFrom p s s
  | tail {s s1 s2 : SysState} : ReachFrom p s s1 → Step p s1 s2 → ReachFrom p s s2

/-! ## Crawler invariants -/

/-- Concatenation of the URLs of all `batch` events, in emission order. -/
def emittedUrls : List SmEvent → List String
  | [] => []
  | SmEvent.batch us _ :: rest => us ++ emittedUrls rest
  | SmEvent.crawlDone _ :: rest => emittedUrls rest
  | SmEvent.failed _ :: rest => emittedUrls rest

def isFailedEv : SmEvent → Bool
  | SmEvent.failed _ => true
  | _ => false

def isDoneEv : SmEvent → Bool
  | SmEvent.crawlDone _ => true
  | _ => false

/-- Whether fetching this sitemap document aborts the crawl: a thrown fetch
error or a non-ok HTTP status. -/
def smFails : SmFetch → Bool
  | SmFetch.okDoc _ _ => false
  | _ => true

/-- Invariant of the crawl loop while no terminal event has been sent:
the fetch log equals the visited set (in order) and has no duplicates, the
batches emitted so far are exactly the seen set (without duplicates), the
running total counts them, and every fetch so far succeeded. -/
structure CInv (oracle : String → SmFetch) (st : CrawlSt) : Prop where
  fetch_vis : st.fetches = st.visited
  fetch_nodup : st.fetches.Nodup
  emitted_seen : emittedUrls st.events = st.seen
  seen_nodup : st.seen.Nodup
  total_seen : st.total = st.seen.length
  no_term : ∀ e ∈ st.events, isFailedEv e = false ∧ isDoneEv e = false
  fetch_ok : ∀ u ∈ st.fetches, smFails (oracle u) = false

/-- What holds of the final crawl state: the fetch log is duplicate-free,
the emitted page URLs are exactly the seen set (duplicate-free), and if the
loop ran to its terminal event then either it ended with `done` carrying the
running total (equal to the number of page URLs emitted) after only
successful fetches, or it ended with a single `failed` event immediately
after the first failing fetch, which is the last fetch performed. -/
def CrawlPost (oracle : String → SmFetch) (st1 : CrawlSt) (b : Bool) : Prop :=
  st1.fetches.Nodup ∧ emittedUrls st1.events = st1.seen ∧ st1.seen.Nodup ∧
  (b = true →
    (∃ evs, st1.events = evs ++ [SmEvent.crawlDone st1.total] ∧
       (∀ e ∈ evs, isFailedEv e = false ∧ isDoneEv e = false) ∧
       st1.total = (emittedUrls st1.events).length ∧
       ∀ u ∈ st1.fetches, smFails (oracle u) = false) ∨
    (∃ evs msg, st1.events = evs ++ [SmEvent.failed msg] ∧
       (∀ e ∈ evs, isFailedEv e = false ∧ isDoneEv e = false) ∧
       ∃ pre u, st1.fetches = pre ++ [u] ∧
         (∀ v ∈ pre, smFails (oracle v) = false) ∧ smFails (oracle u) = true)) ∧
  (b = false →
    (∀ e ∈ st1.events, isFailedEv e = false ∧ isDoneEv e = false) ∧
    (∀ u ∈ st1.fetches, smFails (oracle u) = false))

/-! ## Concrete objects for witnesses -/

/-- A concrete CheckResult: a timed-out check. -/
def rTimeout : CheckResult := checkUrl "http://example.com" FetchOutcome.timeout 7

/-- A concrete job that has already reached its terminal event. -/
def doneJob : JobState :=
  { total := 1, processed := 1, results := [some rTimeout],
    events := [Event.start 1, Event.progress 0 rTimeout 1 1, Event.jobDone 1 1],
    clients := [], done := true, cancelled := false }

/-- A concrete running job with no result yet. -/
def freshJob : JobState :=
  { total := 1, processed := 0, results := [none],
    events := [Event.start 1], clients := [], done := false, cancelled := false }

/-- Concrete run parameters: two URLs, every fetch times out. -/
def pW : Params :=
  { urls := ["example.com", "http://b.com"], concurrency := 2,
    oracle := fun _ => FetchOutcome.timeout, elapsed := fun _ => 7 }

/-- A concrete mid-run system state with one worker about to deliver. -/
def s9 : SysState :=
  { job := { total := 2, processed := 0, results := [none, none],
             events := [Event.start 2], clients := [], done := false, cancelled := false },
    cursor := 1, workers := [WorkerPC.delivering 0 rTimeout],
    observers := [], finished := false }

/-- A concrete sitemap tree: root references children a and b, which share
the page p2. -/
def smOracleW : String → SmFetch := fun u =>
  if u = "r" then SmFetch.okDoc [] ["a", "b"]
  else if u = "a" then SmFetch.okDoc ["p1", "p2"] []
  else if u = "b" then SmFetch.okDoc ["p2", "p3"] []
  else SmFetch.fail "nope"

/-- A concrete sitemap tree whose child document fails to fetch. -/
def smOracleW2 : String → SmFetch := fun u =>
  if u = "r" then SmFetch.okDoc ["p1"] ["s"] else SmFetch.fail "boom"

theorem checkUrl_url (url : String) (o : FetchOutcome) (e : Nat) :
    (checkUrl url o e).url = url := by
  cases o with
  | timeout => rfl
  | netError msg => rfl
  | response status okFlag ct page =>
      simp only [checkUrl]
      split
      · rfl
      · split <;> rfl

@[simp] theorem heldIdx_idle : WorkerPC.idle.heldIdx = none := rfl

@[simp] theorem heldIdx_exited : WorkerPC.exited.heldIdx = none := rfl

@[simp] theorem heldIdx_fetching (i : Nat) : (WorkerPC.fetching i).heldIdx = some i := rfl

@[simp] theorem heldIdx_delivering (i : Nat) (r : CheckResult) :
    (WorkerPC.delivering i r).heldIdx = some i := rfl

theorem countSome_replicate (n : Nat) :
    countSome (List.replicate n (none : Option CheckResult)) = 0 := by
  simp [countSome, List.countP_eq_zero]

theorem countSome_le_length (l : List (Option CheckResult)) : countSome l ≤ l.length :=
  List.countP_le_length _

theorem countSome_set (l : List (Option CheckResult)) (i : Nat) (r : CheckResult)
    (h : l[i]? = some none) : countSome (l.set i (some r)) = countSome l + 1 := by
  induction l generalizing i with
  | nil => simp at h
  | cons hd tl ih =>
      cases i with
      | zero =>
          simp only [List.getElem?_cons_zero, Option.some.injEq] at h
          subst h
          simp [countSome, List.countP_cons]
      | succ n =>
          simp only [List.getElem?_cons_succ] at h
          simp only [List.set_cons_succ, countSome, List.countP_cons]
          have := ih n h
          simp only [countSome] at this
          omega

theorem getElem?_set_of_getElem? {α : Type} {l : List α} {k : Nat} {a b : α}
    (h : l[k]? = some a) (j : Nat) :
    (l.set k b)[j]? = if k = j then some b else l[j]? := by
  have hk : k < l.length := by
    by_contra hge
    rw [List.getElem?_eq_none (by omega)] at h
    exact Option.noConfusion h
  rw [List.getElem?_set]
  simp [hk]

theorem inv_init (p : Params) : Inv p (initState p) := by
  refine
    { len_results := by simp [initState]
      total_eq := rfl
      processed_count := by simp [initState, countSome_replicate]
      slot_content := ?_
      slot_written_lt := ?_
      events_shape := ?_
      held_lt := ?_
      held_uniq := ?_
      held_result := ?_
      coverage := ?_
      cancel_done := by simp [initState]
      done_quiesced := by simp [initState]
      exited_cursor := ?_
      workers_len := by simp [initState]
      obs_client := by simp [initState]
      obs_closed := by simp [initState]
      done_noclients := by simp [initState] }
  · intro idx r h
    simp only [initState, List.getElem?_replicate] at h
    split at h <;> simp_all
  · intro idx r h
    simp only [initState, List.getElem?_replicate] at h
    split at h <;> simp_all
  · exact ⟨[], by simp [progressOnly], by simp [initState], Or.inl ⟨rfl, rfl⟩⟩
  · intro k w idx hk hh
    simp only [initState, List.getElem?_replicate] at hk
    split at hk
    · cases hk; simp at hh
    · exact Option.noConfusion hk
  · intro k1 k2 w1 w2 idx h1 h2 hh1 hh2
    simp only [initState, List.getElem?_replicate] at h1
    split at h1
    · cases h1; simp at hh1
    · exact Option.noConfusion h1
  · intro k idx r h
    simp only [initState, List.getElem?_replicate] at h
    split at h
    · cases h
    · exact Option.noConfusion h
  · intro _ idx h _
    simp only [initState] at h
    omega
  · intro _ ⟨k, h⟩
    simp only [initState, List.getElem?_replicate] at h
    split at h
    · cases h
    · exact Option.noConfusion h

theorem mem_of_getElem {α : Type} {l : List α} {k : Nat} {a : α}
    (h : l[k]? = some a) : a ∈ l :=
  List.mem_iff_getElem?.mpr ⟨k, h⟩

theorem broadcast_mem {obs : List (Nat × ObsState)} {clients : List Nat} {e : Event}
    {io : Nat × ObsState} (h : io ∈ broadcast obs clients e) :
    ∃ io0, io0 ∈ obs ∧
      ((io0.1 ∈ clients ∧
        io = (io0.1, { io0.2 with received := io0.2.received ++ [e],
                                   closed := io0.2.closed || e.isTerminal })) ∨
       (io0.1 ∉ clients ∧ io = io0)) := by
  simp only [broadcast, List.mem_map] at h
  obtain ⟨io0, h0, heq⟩ := h
  by_cases hc : io0.1 ∈ clients
  · exact ⟨io0, h0, Or.inl ⟨hc, by rw [← heq]; simp [hc]⟩⟩
  · exact ⟨io0, h0, Or.inr ⟨hc, by rw [← heq]; simp [hc]⟩⟩

theorem inv_claimStop {p : Params} {s : SysState} {k : Nat}
    (hinv : Inv p s) (hw : s.workers[k]? = some WorkerPC.idle)
    (hc : s.job.cancelled = true) :
    Inv p { s with workers := s.workers.set k WorkerPC.exited } := by
  have hget := fun j => getElem?_set_of_getElem? hw (b := WorkerPC.exited) j
  refine
    { len_results := hinv.len_results
      total_eq := hinv.total_eq
      workers_len := by simpa using hinv.workers_len
      processed_count := hinv.processed_count
      slot_content := hinv.slot_content
      slot_written_lt := hinv.slot_written_lt
      events_shape := hinv.events_shape
      cancel_done := hinv.cancel_done
      obs_client := hinv.obs_client
      obs_closed := hinv.obs_closed
      done_noclients := hinv.done_noclients
      held_lt := ?_
      held_uniq := ?_
      held_result := ?_
      coverage := ?_
      done_quiesced := ?_
      exited_cursor := ?_ }
  · intro k0 w idx h0 hh
    rw [hget k0] at h0
    by_cases hk : k = k0
    · simp only [hk, if_pos rfl] at h0
      cases h0; simp at hh
    · rw [if_neg hk] at h0
      exact hinv.held_lt k0 w idx h0 hh
  · intro k1 k2 w1 w2 idx h1 h2 hh1 hh2
    rw [hget k1] at h1
    rw [hget k2] at h2
    by_cases hk1 : k = k1
    · simp only [hk1, if_pos rfl] at h1
      cases h1; simp at hh1
    · rw [if_neg hk1] at h1
      by_cases hk2 : k = k2
      · simp only [hk2, if_pos rfl] at h2
        cases h2; simp at hh2
      · rw [if_neg hk2] at h2
        exact hinv.held_uniq k1 k2 w1 w2 idx h1 h2 hh1 hh2
  · intro k0 idx r h0
    rw [hget k0] at h0
    by_cases hk : k = k0
    · simp only [hk, if_pos rfl] at h0
      cases h0
    · rw [if_neg hk] at h0
      exact hinv.held_result k0 idx r h0
  · intro h
    rw [hc] at h
    exact Bool.noConfusion h
  · intro hd
    rcases hinv.done_quiesced hd with hcc | ⟨_, hall⟩
    · exact Or.inl hcc
    · exact absurd (hall _ (mem_of_getElem hw)) (by simp)
  · intro h
    rw [hc] at h
    exact Bool.noConfusion h

theorem inv_claimOut {p : Params} {s : SysState} {k : Nat}
    (hinv : Inv p s) (hw : s.workers[k]? = some WorkerPC.idle)
    (hc : s.job.cancelled = false) (hge : p.urls.length ≤ s.cursor) :
    Inv p { s with cursor := s.cursor + 1, workers := s.workers.set k WorkerPC.exited } := by
  have hget := fun j => getElem?_set_of_getElem? hw (b := WorkerPC.exited) j
  refine
    { len_results := hinv.len_results
      total_eq := hinv.total_eq
      workers_len := by simpa using hinv.workers_len
      processed_count := hinv.processed_count
      slot_content := hinv.slot_content
      events_shape := hinv.events_shape
      cancel_done := hinv.cancel_done
      obs_client := hinv.obs_client
      obs_closed := hinv.obs_closed
      done_noclients := hinv.done_noclients
      slot_written_lt := ?_
      held_lt := ?_
      held_uniq := ?_
      held_result := ?_
      coverage := ?_
      done_quiesced := ?_
      exited_cursor := ?_ }
  · intro idx r h0
    have := hinv.slot_written_lt idx r h0
    show idx < s.cursor + 1
    omega
  · intro k0 w idx h0 hh
    rw [hget k0] at h0
    by_cases hk : k = k0
    · simp only [hk, if_pos rfl] at h0
      cases h0; simp at hh
    · rw [if_neg hk] at h0
      have := hinv.held_lt k0 w idx h0 hh
      refine ⟨this.1, ?_, this.2.2⟩
      show idx < s.cursor + 1
      omega
  · intro k1 k2 w1 w2 idx h1 h2 hh1 hh2
    rw [hget k1] at h1
    rw [hget k2] at h2
    by_cases hk1 : k = k1
    · simp only [hk1, if_pos rfl] at h1
      cases h1; simp at hh1
    · rw [if_neg hk1] at h1
      by_cases hk2 : k = k2
      · simp only [hk2, if_pos rfl] at h2
        cases h2; simp at hh2
      · rw [if_neg hk2] at h2
        exact hinv.held_uniq k1 k2 w1 w2 idx h1 h2 hh1 hh2
  · intro k0 idx r h0
    rw [hget k0] at h0
    by_cases hk : k = k0
    · simp only [hk, if_pos rfl] at h0
      cases h0
    · rw [if_neg hk] at h0
      exact hinv.held_result k0 idx r h0
  · intro h idx hcur hlen
    have hcur2 : idx < s.cursor + 1 := hcur
    have hidx : idx < s.cursor := by omega
    rcases hinv.coverage h idx hidx hlen with hl | ⟨k0, w0, hw0, hh0⟩
    · exact Or.inl hl
    · refine Or.inr ⟨k0, w0, ?_, hh0⟩
      rw [hget k0]
      have hk : k ≠ k0 := by
        intro he
        rw [← he, hw] at hw0
        cases hw0
        simp at hh0
      rw [if_neg hk]
      exact hw0
  · intro hd
    rcases hinv.done_quiesced hd with hcc | ⟨_, hall⟩
    · exact Or.inl hcc
    · exact absurd (hall _ (mem_of_getElem hw)) (by simp)
  · intro _ _
    show p.urls.length < s.cursor + 1
    omega

theorem inv_deliverDrop {p : Params} {s : SysState} {k idx : Nat} {r : CheckResult}
    (hinv : Inv p s) (hw : s.workers[k]? = some (WorkerPC.delivering idx r))
    (hc : s.job.cancelled = true) :
    Inv p { s with workers := s.workers.set k WorkerPC.exited } := by
  have hget := fun j => getElem?_set_of_getElem? hw (b := WorkerPC.exited) j
  refine
    { len_results := hinv.len_results
      total_eq := hinv.total_eq
      workers_len := by simpa using hinv.workers_len
      processed_count := hinv.processed_count
      slot_content := hinv.slot_content
      slot_written_lt := hinv.slot_written_lt
      events_shape := hinv.events_shape
      cancel_done := hinv.cancel_done
      obs_client := hinv.obs_client
      obs_closed := hinv.obs_closed
      done_noclients := hinv.done_noclients
      held_lt := ?_
      held_uniq := ?_
      held_result := ?_
      coverage := ?_
      done_quiesced := ?_
      exited_cursor := ?_ }
  · intro k0 w idx0 h0 hh
    rw [hget k0] at h0
    by_cases hk : k = k0
    · simp only [hk, if_pos rfl] at h0
      cases h0; simp at hh
    · rw [if_neg hk] at h0
      exact hinv.held_lt k0 w idx0 h0 hh
  · intro k1 k2 w1 w2 idx0 h1 h2 hh1 hh2
    rw [hget k1] at h1
    rw [hget k2] at h2
    by_cases hk1 : k = k1
    · simp only [hk1, if_pos rfl] at h1
      cases h1; simp at hh1
    · rw [if_neg hk1] at h1
      by_cases hk2 : k = k2
      · simp only [hk2, if_pos rfl] at h2
        cases h2; simp at hh2
      · rw [if_neg hk2] at h2
        exact hinv.held_uniq k1 k2 w1 w2 idx0 h1 h2 hh1 hh2
  · intro k0 idx0 r0 h0
    rw [hget k0] at h0
    by_cases hk : k = k0
    · simp only [hk, if_pos rfl] at h0
      cases h0
    · rw [if_neg hk] at h0
      exact hinv.held_result k0 idx0 r0 h0
  · intro h
    rw [hc] at h
    exact Bool.noConfusion h
  · intro hd
    rcases hinv.done_quiesced hd with hcc | ⟨_, hall⟩
    · exact Or.inl hcc
    · exact absurd (hall _ (mem_of_getElem hw)) (by simp)
  · intro h
    rw [hc] at h
    exact Bool.noConfusion h

theorem inv_claimIdx {p : Params} {s : SysState} {k : Nat}
    (hinv : Inv p s) (hw : s.workers[k]? = some WorkerPC.idle)
    (hc : s.job.cancelled = false) (hlt : s.cursor < p.urls.length) :
    Inv p { s with cursor := s.cursor + 1,
                   workers := s.workers.set k (WorkerPC.fetching s.cursor) } := by
  have hget := fun j => getElem?_set_of_getElem? hw (b := WorkerPC.fetching s.cursor) j
  have hcell : s.job.results[s.cursor]? = some none := by
    have hlen : s.cursor < s.job.results.length := by rw [hinv.len_results]; exact hlt
    cases hcl : s.job.results[s.cursor]? with
    | none =>
        rw [List.getElem?_eq_none_iff] at hcl
        omega
    | some o =>
        cases o with
        | none => rfl
        | some r =>
            have := hinv.slot_written_lt s.cursor r hcl
            omega
  refine
    { len_results := hinv.len_results
      total_eq := hinv.total_eq
      workers_len := by simpa using hinv.workers_len
      processed_count := hinv.processed_count
      slot_content := hinv.slot_content
      events_shape := hinv.events_shape
      cancel_done := hinv.cancel_done
      obs_client := hinv.obs_client
      obs_closed := hinv.obs_closed
      done_noclients := hinv.done_noclients
      slot_written_lt := ?_
      held_lt := ?_
      held_uniq := ?_
      held_result := ?_
      coverage := ?_
      done_quiesced := ?_
      exited_cursor := ?_ }
  · intro idx r h0
    have := hinv.slot_written_lt idx r h0
    show idx < s.cursor + 1
    omega
  · intro k0 w idx h0 hh
    rw [hget k0] at h0
    by_cases hk : k = k0
    · simp only [hk, if_pos rfl] at h0
      cases h0
      simp only [heldIdx_fetching, Option.some.injEq] at hh
      subst hh
      exact ⟨hlt, by show s.cursor < s.cursor + 1; omega, hcell⟩
    · rw [if_neg hk] at h0
      have := hinv.held_lt k0 w idx h0 hh
      refine ⟨this.1, ?_, this.2.2⟩
      show idx < s.cursor + 1
      omega
  · intro k1 k2 w1 w2 idx h1 h2 hh1 hh2
    rw [hget k1] at h1
    rw [hget k2] at h2
    by_cases hk1 : k = k1
    · by_cases hk2 : k = k2
      · omega
      · simp only [hk1, if_pos rfl] at h1
        cases h1
        simp only [heldIdx_fetching, Option.some.injEq] at hh1
        subst hh1
        rw [if_neg hk2] at h2
        have := hinv.held_lt k2 w2 s.cursor h2 hh2
        omega
    · rw [if_neg hk1] at h1
      by_cases hk2 : k = k2
      · simp only [hk2, if_pos rfl] at h2
        cases h2
        simp only [heldIdx_fetching, Option.some.injEq] at hh2
        subst hh2
        have := hinv.held_lt k1 w1 s.cursor h1 hh1
        omega
      · rw [if_neg hk2] at h2
        exact hinv.held_uniq k1 k2 w1 w2 idx h1 h2 hh1 hh2
  · intro k0 idx r h0
    rw [hget k0] at h0
    by_cases hk : k = k0
    · simp only [hk, if_pos rfl] at h0
      cases h0
    · rw [if_neg hk] at h0
      exact hinv.held_result k0 idx r h0
  · intro h idx hcur hlen
    have hcur2 : idx < s.cursor + 1 := hcur
    by_cases hidx : idx = s.cursor
    · refine Or.inr ⟨k, WorkerPC.fetching s.cursor, ?_, by simp [hidx]⟩
      rw [hget k, if_pos rfl]
    · have hidx2 : idx < s.cursor := by omega
      rcases hinv.coverage h idx hidx2 hlen with hl | ⟨k0, w0, hw0, hh0⟩
      · exact Or.inl hl
      · refine Or.inr ⟨k0, w0, ?_, hh0⟩
        rw [hget k0]
        have hk : k ≠ k0 := by
          intro he
          rw [← he, hw] at hw0
          cases hw0
          simp at hh0
        rw [if_neg hk]
        exact hw0
  · intro hd
    rcases hinv.done_quiesced hd with hcc | ⟨_, hall⟩
    · exact Or.inl hcc
    · exact absurd (hall _ (mem_of_getElem hw)) (by simp)
  · intro h2 hex
    obtain ⟨k0, h0⟩ := hex
    rw [hget k0] at h0
    by_cases hk : k = k0
    · simp only [hk, if_pos rfl] at h0
      cases h0
    · rw [if_neg hk] at h0
      have := hinv.exited_cursor hc ⟨k0, h0⟩
      show p.urls.length < s.cursor + 1
      omega

theorem inv_fetchDone {p : Params} {s : SysState} {k idx : Nat}
    (hinv : Inv p s) (hw : s.workers[k]? = some (WorkerPC.fetching idx)) :
    Inv p { s with workers := s.workers.set k (WorkerPC.delivering idx (p.resultFor idx)) } := by
  have hget := fun j =>
    getElem?_set_of_getElem? hw (b := WorkerPC.delivering idx (p.resultFor idx)) j
  refine
    { len_results := hinv.len_results
      total_eq := hinv.total_eq
      workers_len := by simpa using hinv.workers_len
      processed_count := hinv.processed_count
      slot_content := hinv.slot_content
      slot_written_lt := hinv.slot_written_lt
      events_shape := hinv.events_shape
      cancel_done := hinv.cancel_done
      obs_client := hinv.obs_client
      obs_closed := hinv.obs_closed
      done_noclients := hinv.done_noclients
      held_lt := ?_
      held_uniq := ?_
      held_result := ?_
      coverage := ?_
      done_quiesced := ?_
      exited_cursor := ?_ }
  · intro k0 w idx0 h0 hh
    rw [hget k0] at h0
    by_cases hk : k = k0
    · simp only [hk, if_pos rfl] at h0
      cases h0
      simp only [heldIdx_delivering, Option.some.injEq] at hh
      cases hh
      exact hinv.held_lt k (WorkerPC.fetching idx) idx hw rfl
    · rw [if_neg hk] at h0
      exact hinv.held_lt k0 w idx0 h0 hh
  · intro k1 k2 w1 w2 idx0 h1 h2 hh1 hh2
    rw [hget k1] at h1
    rw [hget k2] at h2
    by_cases hk1 : k = k1
    · by_cases hk2 : k = k2
      · omega
      · simp only [hk1, if_pos rfl] at h1
        cases h1
        simp only [heldIdx_delivering, Option.some.injEq] at hh1
        cases hh1
        rw [if_neg hk2] at h2
        rw [hk1] at hw
        exact hinv.held_uniq k1 k2 (WorkerPC.fetching idx) w2 idx hw h2 rfl hh2
    · rw [if_neg hk1] at h1
      by_cases hk2 : k = k2
      · simp only [hk2, if_pos rfl] at h2
        cases h2
        simp only [heldIdx_delivering, Option.some.injEq] at hh2
        cases hh2
        rw [hk2] at hw
        exact hinv.held_uniq k1 k2 w1 (WorkerPC.fetching idx) idx h1 hw hh1 rfl
      · rw [if_neg hk2] at h2
        exact hinv.held_uniq k1 k2 w1 w2 idx0 h1 h2 hh1 hh2
  · intro k0 idx0 r0 h0
    rw [hget k0] at h0
    by_cases hk : k = k0
    · simp only [hk, if_pos rfl] at h0
      cases h0
      rfl
    · rw [if_neg hk] at h0
      exact hinv.held_result k0 idx0 r0 h0
  · intro h idx0 hcur hlen
    rcases hinv.coverage h idx0 hcur hlen with hl | ⟨k0, w0, hw0, hh0⟩
    · exact Or.inl hl
    · by_cases hk : k = k0
      · subst hk
        rw [hw] at hw0
        cases hw0
        simp only [heldIdx_fetching, Option.some.injEq] at hh0
        refine Or.inr ⟨k, WorkerPC.delivering idx (p.resultFor idx), ?_, by simp [hh0]⟩
        rw [hget k, if_pos rfl]
      · refine Or.inr ⟨k0, w0, ?_, hh0⟩
        rw [hget k0, if_neg hk]
        exact hw0
  · intro hd
    rcases hinv.done_quiesced hd with hcc | ⟨_, hall⟩
    · exact Or.inl hcc
    · exact absurd (hall _ (mem_of_getElem hw)) (by simp)
  · intro h2 hex
    obtain ⟨k0, h0⟩ := hex
    rw [hget k0] at h0
    by_cases hk : k = k0
    · simp only [hk, if_pos rfl] at h0
      cases h0
    · rw [if_neg hk] at h0
      exact hinv.exited_cursor h2 ⟨k0, h0⟩

theorem deliverSys_results (s : SysState) (k idx : Nat) (r : CheckResult) :
    (deliverSys s k idx r).job.results = s.job.results.set idx (some r) := rfl

theorem deliverSys_processed (s : SysState) (k idx : Nat) (r : CheckResult) :
    (deliverSys s k idx r).job.processed = s.job.processed + 1 := rfl

theorem deliverSys_events (s : SysState) (k idx : Nat) (r : CheckResult) :
    (deliverSys s k idx r).job.events =
      s.job.events ++ [Event.progress idx r (s.job.processed + 1) s.job.total] := rfl

theorem deliverSys_clients (s : SysState) (k idx : Nat) (r : CheckResult) :
    (deliverSys s k idx r).job.clients = s.job.clients := rfl

theorem deliverSys_workers (s : SysState) (k idx : Nat) (r : CheckResult) :
    (deliverSys s k idx r).workers = s.workers.set k WorkerPC.idle := rfl

theorem deliverSys_observers (s : SysState) (k idx : Nat) (r : CheckResult) :
    (deliverSys s k idx r).observers =
      broadcast s.observers s.job.clients
        (Event.progress idx r (s.job.processed + 1) s.job.total) := rfl

theorem inv_deliverStep {p : Params} {s : SysState} {k idx : Nat} {r : CheckResult}
    (hinv : Inv p s) (hw : s.workers[k]? = some (WorkerPC.delivering idx r))
    (hc : s.job.cancelled = false) :
    Inv p (deliverSys s k idx r) := by
  have hheld := hinv.held_lt k (WorkerPC.delivering idx r) idx hw rfl
  have hr : r = p.resultFor idx := hinv.held_result k idx r hw
  have hdone : s.job.done = false := by
    cases hd : s.job.done
    · rfl
    · rcases hinv.done_quiesced hd with hcc | ⟨_, hall⟩
      · rw [hc] at hcc; exact Bool.noConfusion hcc
      · exact absurd (hall _ (mem_of_getElem hw)) (by simp)
  have hgetw := fun j => getElem?_set_of_getElem? hw (b := WorkerPC.idle) j
  have hgetr := fun j => getElem?_set_of_getElem? hheld.2.2 (b := some r) j
  refine
    { len_results := ?_
      total_eq := hinv.total_eq
      workers_len := by rw [deliverSys_workers, List.length_set]; exact hinv.workers_len
      processed_count := ?_
      slot_content := ?_
      slot_written_lt := ?_
      events_shape := ?_
      held_lt := ?_
      held_uniq := ?_
      held_result := ?_
      coverage := ?_
      cancel_done := fun hcc => Bool.noConfusion (hc.symm.trans hcc)
      done_quiesced := fun hd => Bool.noConfusion (hdone.symm.trans hd)
      exited_cursor := ?_
      obs_client := ?_
      obs_closed := ?_
      done_noclients := fun hd => Bool.noConfusion (hdone.symm.trans hd) }
  · rw [deliverSys_results, List.length_set]
    exact hinv.len_results
  · rw [deliverSys_processed, deliverSys_results,
        countSome_set s.job.results idx r hheld.2.2, hinv.processed_count]
  · intro idx0 r0 h0
    rw [deliverSys_results, hgetr idx0] at h0
    by_cases hi : idx = idx0
    · rw [if_pos hi] at h0
      cases h0
      rw [← hi]
      exact hr
    · rw [if_neg hi] at h0
      exact hinv.slot_content idx0 r0 h0
  · intro idx0 r0 h0
    rw [deliverSys_results, hgetr idx0] at h0
    show idx0 < s.cursor
    by_cases hi : idx = idx0
    · rw [← hi]
      exact hheld.2.1
    · rw [if_neg hi] at h0
      exact hinv.slot_written_lt idx0 r0 h0
  · obtain ⟨ps, hpo, hlen, hsh⟩ := hinv.events_shape
    rcases hsh with ⟨_, hev⟩ | ⟨hd, _⟩
    · refine ⟨ps ++ [Event.progress idx r (s.job.processed + 1) s.job.total], ?_, ?_, ?_⟩
      · intro e he
        rcases List.mem_append.1 he with h1 | h2
        · exact hpo e h1
        · rcases List.mem_singleton.1 h2 with rfl
          exact ⟨idx, r, s.job.processed + 1, s.job.total, rfl⟩
      · rw [List.length_append, hlen, deliverSys_processed]
        rfl
      · refine Or.inl ⟨hdone, ?_⟩
        rw [deliverSys_events, hev]
        simp
    · rw [hdone] at hd
      exact Bool.noConfusion hd
  · intro k0 w idx0 h0 hh
    rw [deliverSys_workers, hgetw k0] at h0
    by_cases hk : k = k0
    · rw [if_pos hk] at h0
      cases h0
      simp at hh
    · rw [if_neg hk] at h0
      have old := hinv.held_lt k0 w idx0 h0 hh
      have hne : idx ≠ idx0 := by
        intro he
        exact hk (hinv.held_uniq k k0 (WorkerPC.delivering idx r) w idx0 hw h0 (by simp [he]) hh)
      refine ⟨old.1, old.2.1, ?_⟩
      rw [deliverSys_results, hgetr idx0, if_neg hne]
      exact old.2.2
  · intro k1 k2 w1 w2 idx0 h1 h2 hh1 hh2
    rw [deliverSys_workers, hgetw k1] at h1
    rw [deliverSys_workers, hgetw k2] at h2
    by_cases hk1 : k = k1
    · rw [if_pos hk1] at h1
      cases h1
      simp at hh1
    · rw [if_neg hk1] at h1
      by_cases hk2 : k = k2
      · rw [if_pos hk2] at h2
        cases h2
        simp at hh2
      · rw [if_neg hk2] at h2
        exact hinv.held_uniq k1 k2 w1 w2 idx0 h1 h2 hh1 hh2
  · intro k0 idx0 r0 h0
    rw [deliverSys_workers, hgetw k0] at h0
    by_cases hk : k = k0
    · rw [if_pos hk] at h0
      cases h0
    · rw [if_neg hk] at h0
      exact hinv.held_result k0 idx0 r0 h0
  · intro _ idx0 hcur hlen2
    have hcur2 : idx0 < s.cursor := hcur
    rcases hinv.coverage hc idx0 hcur2 hlen2 with ⟨r0, h0⟩ | ⟨k0, w0, hw0, hh0⟩
    · by_cases hi : idx = idx0
      · exact Or.inl ⟨r, by rw [deliverSys_results, hgetr idx0, if_pos hi]⟩
      · exact Or.inl ⟨r0, by rw [deliverSys_results, hgetr idx0, if_neg hi]; exact h0⟩
    · by_cases hk : k = k0
      · rw [← hk, hw] at hw0
        cases hw0
        simp only [heldIdx_delivering, Option.some.injEq] at hh0
        exact Or.inl ⟨r, by rw [deliverSys_results, hgetr idx0, if_pos hh0]⟩
      · refine Or.inr ⟨k0, w0, ?_, hh0⟩
        rw [deliverSys_workers, hgetw k0, if_neg hk]
        exact hw0
  · intro _ hex
    obtain ⟨k0, h0⟩ := hex
    rw [deliverSys_workers, hgetw k0] at h0
    by_cases hk : k = k0
    · rw [if_pos hk] at h0
      cases h0
    · rw [if_neg hk] at h0
      show p.urls.length < s.cursor
      exact hinv.exited_cursor hc ⟨k0, h0⟩
  · intro io hio hmem
    rw [deliverSys_observers] at hio
    have hmem2 : io.1 ∈ s.job.clients := hmem
    rcases broadcast_mem hio with ⟨io0, h0, ⟨hin, heq⟩ | ⟨hnin, heq⟩⟩
    · have old := hinv.obs_client io0 h0 hin
      subst heq
      constructor
      · rw [deliverSys_events]
        simp [old.1]
      · simp [old.2, Event.isTerminal]
    · subst heq
      exact absurd hmem2 hnin
  · intro io hio hcl
    rw [deliverSys_observers] at hio
    rcases broadcast_mem hio with ⟨io0, h0, ⟨hin, heq⟩ | ⟨hnin, heq⟩⟩
    · have old := hinv.obs_client io0 h0 hin
      subst heq
      simp [old.2, Event.isTerminal] at hcl
    · subst heq
      rcases hinv.obs_closed _ h0 hcl with hdet | ⟨_, hd⟩
      · exact Or.inl hdet
      · rw [hdone] at hd
        exact Bool.noConfusion hd

theorem cancelSys_done {s : SysState} (hd : s.job.done = true) :
    cancelSys s = { s with job := { s.job with cancelled := true } } := by
  simp [cancelSys, hd]

theorem cancelSys_run {s : SysState} (hd : s.job.done = false) :
    cancelSys s =
      sysPush { s with job := { s.job with cancelled := true, done := true } }
        (Event.failed "cancelled") := by
  simp [cancelSys, hd]

theorem inv_cancelStep {p : Params} {s : SysState} (hinv : Inv p s) :
    Inv p (cancelSys s) := by
  by_cases hd : s.job.done = true
  · rw [cancelSys_done hd]
    exact
      { len_results := hinv.len_results
        total_eq := hinv.total_eq
        workers_len := by simpa using hinv.workers_len
        processed_count := hinv.processed_count
        slot_content := hinv.slot_content
        slot_written_lt := hinv.slot_written_lt
        events_shape := hinv.events_shape
        held_lt := hinv.held_lt
        held_uniq := hinv.held_uniq
        held_result := hinv.held_result
        coverage := fun h => Bool.noConfusion h
        cancel_done := fun _ => hd
        done_quiesced := fun _ => Or.inl rfl
        exited_cursor := fun h => Bool.noConfusion h
        obs_client := hinv.obs_client
        obs_closed := hinv.obs_closed
        done_noclients := fun _ => hinv.done_noclients hd }
  · replace hd : s.job.done = false := by
      cases h : s.job.done
      · rfl
      · exact absurd h hd
    rw [cancelSys_run hd]
    obtain ⟨ps, hpo, hlen, hsh⟩ := hinv.events_shape
    rcases hsh with ⟨_, hev⟩ | ⟨hdt, _⟩
    · refine
        { len_results := hinv.len_results
          total_eq := hinv.total_eq
          workers_len := by simpa using hinv.workers_len
          processed_count := hinv.processed_count
          slot_content := hinv.slot_content
          slot_written_lt := hinv.slot_written_lt
          events_shape := ?_
          held_lt := hinv.held_lt
          held_uniq := hinv.held_uniq
          held_result := hinv.held_result
          coverage := fun h => Bool.noConfusion h
          cancel_done := fun _ => rfl
          done_quiesced := fun _ => Or.inl rfl
          exited_cursor := fun h => Bool.noConfusion h
          obs_client := ?_
          obs_closed := ?_
          done_noclients := fun _ => rfl }
      · refine ⟨ps, hpo, hlen, Or.inr ⟨rfl, Event.failed "cancelled", rfl, ?_⟩⟩
        show s.job.events ++ [Event.failed "cancelled"] = _
        rw [hev]
      · intro io hio hmem
        exact absurd (show io.1 ∈ ([] : List Nat) from hmem) (List.not_mem_nil _)
      · intro io hio hcl
        have hio2 : io ∈ broadcast s.observers s.job.clients (Event.failed "cancelled") := hio
        rcases broadcast_mem hio2 with ⟨io0, h0, ⟨hin, heq⟩ | ⟨hnin, heq⟩⟩
        · have old := hinv.obs_client io0 h0 hin
          subst heq
          refine Or.inr ⟨?_, rfl⟩
          show io0.2.received ++ [Event.failed "cancelled"] =
            s.job.events ++ [Event.failed "cancelled"]
          rw [old.1]
        · subst heq
          rcases hinv.obs_closed _ h0 hcl with hdet | ⟨_, hdn⟩
          · exact Or.inl hdet
          · rw [hd] at hdn
            exact Bool.noConfusion hdn
    · rw [hd] at hdt
      exact Bool.noConfusion hdt

theorem finishSys_done {s : SysState} (hd : s.job.done = true) :
    finishSys s = { s with finished := true } := by
  simp [finishSys, hd]

theorem finishSys_run {s : SysState} (hd : s.job.done = false)
    (hc : s.job.cancelled = false) :
    finishSys s =
      sysPush { s with finished := true, job := { s.job with done := true } }
        (Event.jobDone s.job.processed s.job.total) := by
  simp [finishSys, hd, hc]

theorem inv_finishStep {p : Params} {s : SysState} (hinv : Inv p s)
    (hall : ∀ w ∈ s.workers, w = WorkerPC.exited) :
    Inv p (finishSys s) := by
  by_cases hd : s.job.done = true
  · rw [finishSys_done hd]
    exact
      { len_results := hinv.len_results
        total_eq := hinv.total_eq
        workers_len := by simpa using hinv.workers_len
        processed_count := hinv.processed_count
        slot_content := hinv.slot_content
        slot_written_lt := hinv.slot_written_lt
        events_shape := hinv.events_shape
        held_lt := hinv.held_lt
        held_uniq := hinv.held_uniq
        held_result := hinv.held_result
        coverage := hinv.coverage
        cancel_done := hinv.cancel_done
        done_quiesced := fun _ => Or.inr ⟨rfl, hall⟩
        exited_cursor := hinv.exited_cursor
        obs_client := hinv.obs_client
        obs_closed := hinv.obs_closed
        done_noclients := hinv.done_noclients }
  · replace hd : s.job.done = false := by
      cases h : s.job.done
      · rfl
      · exact absurd h hd
    have hc : s.job.cancelled = false := by
      cases h : s.job.cancelled
      · rfl
      · rw [hinv.cancel_done h] at hd
        exact Bool.noConfusion hd
    rw [finishSys_run hd hc]
    obtain ⟨ps, hpo, hlen, hsh⟩ := hinv.events_shape
    rcases hsh with ⟨_, hev⟩ | ⟨hdt, _⟩
    · refine
        { len_results := hinv.len_results
          total_eq := hinv.total_eq
          workers_len := by simpa using hinv.workers_len
          processed_count := hinv.processed_count
          slot_content := hinv.slot_content
          slot_written_lt := hinv.slot_written_lt
          events_shape := ?_
          held_lt := hinv.held_lt
          held_uniq := hinv.held_uniq
          held_result := hinv.held_result
          coverage := hinv.coverage
          cancel_done := fun hcc => Bool.noConfusion (hc.symm.trans hcc)
          done_quiesced := fun _ => Or.inr ⟨rfl, hall⟩
          exited_cursor := hinv.exited_cursor
          obs_client := ?_
          obs_closed := ?_
          done_noclients := fun _ => rfl }
      · refine ⟨ps, hpo, hlen,
          Or.inr ⟨rfl, Event.jobDone s.job.processed s.job.total, rfl, ?_⟩⟩
        show s.job.events ++ [Event.jobDone s.job.processed s.job.total] = _
        rw [hev]
      · intro io hio hmem
        exact absurd (show io.1 ∈ ([] : List Nat) from hmem) (List.not_mem_nil _)
      · intro io hio hcl
        have hio2 : io ∈ broadcast s.observers s.job.clients
            (Event.jobDone s.job.processed s.job.total) := hio
        rcases broadcast_mem hio2 with ⟨io0, h0, ⟨hin, heq⟩ | ⟨hnin, heq⟩⟩
        · have old := hinv.obs_client io0 h0 hin
          subst heq
          refine Or.inr ⟨?_, rfl⟩
          show io0.2.received ++ [Event.jobDone s.job.processed s.job.total] =
            s.job.events ++ [Event.jobDone s.job.processed s.job.total]
          rw [old.1]
        · subst heq
          rcases hinv.obs_closed _ h0 hcl with hdet | ⟨_, hdn⟩
          · exact Or.inl hdet
          · rw [hd] at hdn
            exact Bool.noConfusion hdn
    · rw [hd] at hdt
      exact Bool.noConfusion hdt

theorem attachSys_done {s : SysState} {oid : Nat} (hd : s.job.done = true) :
    attachSys s oid = { s with observers := s.observers ++
      [(oid, { received := s.job.events, closed := true, detached := false })] } := by
  simp [attachSys, hd]

theorem attachSys_run {s : SysState} {oid : Nat} (hd : s.job.done = false) :
    attachSys s oid = { s with
      observers := s.observers ++
        [(oid, { received := s.job.events, closed := false, detached := false })],
      job := { s.job with clients := s.job.clients ++ [oid] } } := by
  simp [attachSys, hd]

theorem inv_attachStep {p : Params} {s : SysState} {oid : Nat} (hinv : Inv p s)
    (hfresh : ∀ io ∈ s.observers, io.1 ≠ oid) :
    Inv p (attachSys s oid) := by
  by_cases hd : s.job.done = true
  · rw [attachSys_done hd]
    refine
      { len_results := hinv.len_results
        total_eq := hinv.total_eq
        workers_len := by simpa using hinv.workers_len
        processed_count := hinv.processed_count
        slot_content := hinv.slot_content
        slot_written_lt := hinv.slot_written_lt
        events_shape := hinv.events_shape
        held_lt := hinv.held_lt
        held_uniq := hinv.held_uniq
        held_result := hinv.held_result
        coverage := hinv.coverage
        cancel_done := hinv.cancel_done
        done_quiesced := hinv.done_quiesced
        exited_cursor := hinv.exited_cursor
        obs_client := ?_
        obs_closed := ?_
        done_noclients := hinv.done_noclients }
    · intro io hio hmem
      have hmem2 : io.1 ∈ s.job.clients := hmem
      rw [hinv.done_noclients hd] at hmem2
      exact absurd hmem2 (List.not_mem_nil _)
    · intro io hio hcl
      rcases List.mem_append.1 hio with hold | hnew
      · exact hinv.obs_closed io hold hcl
      · rcases List.mem_singleton.1 hnew with rfl
        exact Or.inr ⟨rfl, hd⟩
  · replace hd : s.job.done = false := by
      cases h : s.job.done
      · rfl
      · exact absurd h hd
    rw [attachSys_run hd]
    refine
      { len_results := hinv.len_results
        total_eq := hinv.total_eq
        workers_len := by simpa using hinv.workers_len
        processed_count := hinv.processed_count
        slot_content := hinv.slot_content
        slot_written_lt := hinv.slot_written_lt
        events_shape := ?_
        held_lt := hinv.held_lt
        held_uniq := hinv.held_uniq
        held_result := hinv.held_result
        coverage := hinv.coverage
        cancel_done := hinv.cancel_done
        done_quiesced := fun h => Bool.noConfusion (hd.symm.trans h)
        exited_cursor := hinv.exited_cursor
        obs_client := ?_
        obs_closed := ?_
        done_noclients := fun h => Bool.noConfusion (hd.symm.trans h) }
    · obtain ⟨ps, hpo, hlen, hsh⟩ := hinv.events_shape
      rcases hsh with ⟨_, hev⟩ | ⟨hdt, _⟩
      · exact ⟨ps, hpo, hlen, Or.inl ⟨hd, hev⟩⟩
      · rw [hd] at hdt
        exact Bool.noConfusion hdt
    · intro io hio hmem
      have hmem2 : io.1 ∈ s.job.clients ++ [oid] := hmem
      rcases List.mem_append.1 hio with hold | hnew
      · rcases List.mem_append.1 hmem2 with hm | hm
        · exact hinv.obs_client io hold hm
        · exact absurd (List.mem_singleton.1 hm) (hfresh io hold)
      · rcases List.mem_singleton.1 hnew with rfl
        refine ⟨?_, ?_⟩
        · rfl
        · rfl
    · intro io hio hcl
      rcases List.mem_append.1 hio with hold | hnew
      · exact hinv.obs_closed io hold hcl
      · rcases List.mem_singleton.1 hnew with rfl
        exact Bool.noConfusion hcl

theorem detach_mem {obs : List (Nat × ObsState)} {oid : Nat} {io : Nat × ObsState}
    (h : io ∈ obs.map fun io0 =>
        if io0.1 = oid then (io0.1, { io0.2 with closed := true, detached := true })
        else io0) :
    ∃ io0, io0 ∈ obs ∧
      ((io0.1 = oid ∧ io = (io0.1, { io0.2 with closed := true, detached := true })) ∨
       (io0.1 ≠ oid ∧ io = io0)) := by
  simp only [List.mem_map] at h
  obtain ⟨io0, h0, heq⟩ := h
  by_cases hc : io0.1 = oid
  · exact ⟨io0, h0, Or.inl ⟨hc, by rw [← heq]; simp [hc]⟩⟩
  · exact ⟨io0, h0, Or.inr ⟨hc, by rw [← heq]; simp [hc]⟩⟩

theorem inv_detachStep {p : Params} {s : SysState} {oid : Nat} (hinv : Inv p s) :
    Inv p (detachSys s oid) := by
  refine
    { len_results := hinv.len_results
      total_eq := hinv.total_eq
      workers_len := by simpa using hinv.workers_len
      processed_count := hinv.processed_count
      slot_content := hinv.slot_content
      slot_written_lt := hinv.slot_written_lt
      events_shape := hinv.events_shape
      held_lt := hinv.held_lt
      held_uniq := hinv.held_uniq
      held_result := hinv.held_result
      coverage := hinv.coverage
      cancel_done := hinv.cancel_done
      done_quiesced := hinv.done_quiesced
      exited_cursor := hinv.exited_cursor
      obs_client := ?_
      obs_closed := ?_
      done_noclients := ?_ }
  · intro io hio hmem
    have hmem2 : io.1 ∈ s.job.clients.filter (fun c => c ≠ oid) := hmem
    have hio2 : io ∈ s.observers.map fun io0 =>
        if io0.1 = oid then (io0.1, { io0.2 with closed := true, detached := true })
        else io0 := hio
    rcases detach_mem hio2 with ⟨io0, h0, ⟨heqid, heq⟩ | ⟨hne, heq⟩⟩
    · subst heq
      have := (List.mem_filter.1 hmem2).2
      simp only [ne_eq, decide_eq_true_eq] at this
      exact absurd heqid this
    · subst heq
      exact hinv.obs_client _ h0 (List.mem_filter.1 hmem2).1
  · intro io hio hcl
    have hio2 : io ∈ s.observers.map fun io0 =>
        if io0.1 = oid then (io0.1, { io0.2 with closed := true, detached := true })
        else io0 := hio
    rcases detach_mem hio2 with ⟨io0, h0, ⟨heqid, heq⟩ | ⟨hne, heq⟩⟩
    · subst heq
      exact Or.inl rfl
    · subst heq
      exact hinv.obs_closed _ h0 hcl
  · intro h
    show s.job.clients.filter (fun c => c ≠ oid) = []
    rw [hinv.done_noclients h]
    rfl

theorem inv_step {p : Params} {s s1 : SysState} (hinv : Inv p s) (hstep : Step p s s1) :
    Inv p s1 := by
  cases hstep with
  | claimStop k hw hc => exact inv_claimStop hinv hw hc
  | claimIdx k hw hc hlt => exact inv_claimIdx hinv hw hc hlt
  | claimOut k hw hc hge => exact inv_claimOut hinv hw hc hge
  | fetchDone k idx hw => exact inv_fetchDone hinv hw
  | deliverDrop k idx r hw hc => exact inv_deliverDrop hinv hw hc
  | deliverStep k idx r hw hc => exact inv_deliverStep hinv hw hc
  | cancelStep => exact inv_cancelStep hinv
  | finishStep hall hf => exact inv_finishStep hinv hall
  | attachStep oid hfresh => exact inv_attachStep hinv hfresh
  | detachStep oid => exact inv_detachStep hinv

theorem reachable_inv {p : Params} {s : SysState} (h : Reachable p s) : Inv p s := by
  induction h with
  | init => exact inv_init p
  | step _ hstep ih => exact inv_step ih hstep

theorem reachable_of_reachFrom {p : Params} {s s1 : SysState}
    (h : Reachable p s) (h2 : ReachFrom p s s1) : Reachable p s1 := by
  induction h2 with
  | refl => exact h
  | tail _ hstep ih => exact Reachable.step ih hstep

/-- After the done flag is set, no single step changes the log, the result
slots, the processed counter, or the done flag. -/
theorem step_after_done {p : Params} {s s1 : SysState} (hinv : Inv p s)
    (hstep : Step p s s1) (hd : s.job.done = true) :
    s1.job.events = s.job.events ∧ s1.job.results = s.job.results ∧
    s1.job.processed = s.job.processed ∧ s1.job.done = true := by
  cases hstep with
  | claimStop k hw hc => exact ⟨rfl, rfl, rfl, hd⟩
  | claimIdx k hw hc hlt => exact ⟨rfl, rfl, rfl, hd⟩
  | claimOut k hw hc hge => exact ⟨rfl, rfl, rfl, hd⟩
  | fetchDone k idx hw => exact ⟨rfl, rfl, rfl, hd⟩
  | deliverDrop k idx r hw hc => exact ⟨rfl, rfl, rfl, hd⟩
  | deliverStep k idx r hw hc =>
      rcases hinv.done_quiesced hd with hcc | ⟨_, hall⟩
      · rw [hc] at hcc
        exact Bool.noConfusion hcc
      · exact absurd (hall _ (mem_of_getElem hw)) (by simp)
  | cancelStep =>
      rw [cancelSys_done hd]
      exact ⟨rfl, rfl, rfl, hd⟩
  | finishStep hall hf =>
      rw [finishSys_done hd]
      exact ⟨rfl, rfl, rfl, hd⟩
  | attachStep oid hfresh =>
      rw [attachSys_done hd]
      exact ⟨rfl, rfl, rfl, hd⟩
  | detachStep oid => exact ⟨rfl, rfl, rfl, hd⟩

/-- After the done flag is set, the log, the result slots, the processed
counter and the done flag stay frozen along every interleaving suffix. -/
theorem frozen_after_done {p : Params} {s s1 : SysState} (h : Reachable p s)
    (hd : s.job.done = true) (hr : ReachFrom p s s1) :
    s1.job.events = s.job.events ∧ s1.job.results = s.job.results ∧
    s1.job.processed = s.job.processed ∧ s1.job.done = true := by
  induction hr with
  | refl => exact ⟨rfl, rfl, rfl, hd⟩
  | tail hpre hstep ih =>
      rename_i sMid sEnd
      have hreach : Reachable p sMid := reachable_of_reachFrom h hpre
      have hstepRes := step_after_done (reachable_inv hreach) hstep ih.2.2.2
      exact ⟨hstepRes.1.trans ih.1, hstepRes.2.1.trans ih.2.1,
        hstepRes.2.2.1.trans ih.2.2.1, hstepRes.2.2.2⟩

/-- The processed counter never decreases across a step. -/
theorem step_processed_mono {p : Params} {s s1 : SysState} (hstep : Step p s s1) :
    s.job.processed ≤ s1.job.processed := by
  cases hstep with
  | claimStop k hw hc => exact Nat.le_refl _
  | claimIdx k hw hc hlt => exact Nat.le_refl _
  | claimOut k hw hc hge => exact Nat.le_refl _
  | fetchDone k idx hw => exact Nat.le_refl _
  | deliverDrop k idx r hw hc => exact Nat.le_refl _
  | deliverStep k idx r hw hc =>
      show s.job.processed ≤ s.job.processed + 1
      omega
  | cancelStep =>
      by_cases hd : s.job.done = true
      · rw [cancelSys_done hd]
      · replace hd : s.job.done = false := by
          cases h : s.job.done
          · rfl
          · exact absurd h hd
        rw [cancelSys_run hd]
        exact Nat.le_refl _
  | finishStep hall hf =>
      by_cases hd : s.job.done = true
      · rw [finishSys_done hd]
      · replace hd : s.job.done = false := by
          cases h : s.job.done
          · rfl
          · exact absurd h hd
        by_cases hc : s.job.cancelled = true
        · simp only [finishSys, hd, hc]
          exact Nat.le_refl _
        · replace hc : s.job.cancelled = false := by
            cases h : s.job.cancelled
            · rfl
            · exact absurd h hc
          rw [finishSys_run hd hc]
          exact Nat.le_refl _
  | attachStep oid hfresh =>
      by_cases hd : s.job.done = true
      · rw [attachSys_done hd]
      · replace hd : s.job.done = false := by
          cases h : s.job.done
          · rfl
          · exact absurd h hd
        rw [attachSys_run hd]
  | detachStep oid => exact Nat.le_refl _

/-- A non-empty result slot stays unchanged across every step: slots are
written at most once and never cleared or overwritten. -/
theorem step_slots_mono {p : Params} {s s1 : SysState} (hinv : Inv p s)
    (hstep : Step p s s1) :
    ∀ (idx : Nat) (r : CheckResult), s.job.results[idx]? = some (some r) →
      s1.job.results[idx]? = some (some r) := by
  cases hstep with
  | claimStop k hw hc => exact fun idx r h => h
  | claimIdx k hw hc hlt => exact fun idx r h => h
  | claimOut k hw hc hge => exact fun idx r h => h
  | fetchDone k idx hw => exact fun idx r h => h
  | deliverDrop k idx r hw hc => exact fun idx r h => h
  | deliverStep k idx0 r0 hw hc =>
      intro idx r h
      have hheld := hinv.held_lt k (WorkerPC.delivering idx0 r0) idx0 hw rfl
      have hne : idx0 ≠ idx := by
        intro he
        have h2 := hheld.2.2
        rw [he] at h2
        rw [h2] at h
        exact Option.noConfusion (Option.some.inj h)
      rw [deliverSys_results, getElem?_set_of_getElem? hheld.2.2 idx, if_neg hne]
      exact h
  | cancelStep =>
      intro idx r h
      by_cases hd : s.job.done = true
      · rw [cancelSys_done hd]
        exact h
      · replace hd : s.job.done = false := by
          cases hh : s.job.done
          · rfl
          · exact absurd hh hd
        rw [cancelSys_run hd]
        exact h
  | finishStep hall hf =>
      intro idx r h
      by_cases hd : s.job.done = true
      · rw [finishSys_done hd]
        exact h
      · replace hd : s.job.done = false := by
          cases hh : s.job.done
          · rfl
          · exact absurd hh hd
        by_cases hc : s.job.cancelled = true
        · simp only [finishSys, hd, hc]
          exact h
        · replace hc : s.job.cancelled = false := by
            cases hh : s.job.cancelled
            · rfl
            · exact absurd hh hc
          rw [finishSys_run hd hc]
          exact h
  | attachStep oid hfresh =>
      intro idx r h
      by_cases hd : s.job.done = true
      · rw [attachSys_done hd]
        exact h
      · replace hd : s.job.done = false := by
          cases hh : s.job.done
          · rfl
          · exact absurd hh hd
        rw [attachSys_run hd]
        exact h
  | detachStep oid => exact fun idx r h => h

@[simp] theorem isTerminal_start (n : Nat) : (Event.start n).isTerminal = false := rfl

@[simp] theorem isTerminal_progress (i : Nat) (r : CheckResult) (pr t : Nat) :
    (Event.progress i r pr t).isTerminal = false := rfl

@[simp] theorem isTerminal_jobDone (pr t : Nat) : (Event.jobDone pr t).isTerminal = true := rfl

@[simp] theorem isTerminal_failed (m : String) : (Event.failed m).isTerminal = true := rfl

theorem progressOnly_no_terminal {ps : List Event} (h : progressOnly ps) :
    ∀ e ∈ ps, e.isTerminal = false := by
  intro e he
  obtain ⟨i, r, pr, t, rfl⟩ := h e he
  rfl

theorem eventsShape_consequences {p : Params} {job : JobState} (h : EventsShape p job) :
    job.events.countP (fun e => e.isTerminal) ≤ 1 ∧
    (∀ (i : Nat) (e : Event), job.events[i]? = some e → e.isTerminal = true →
        i + 1 = job.events.length) ∧
    (job.done = true ↔ ∃ e ∈ job.events, e.isTerminal = true) := by
  obtain ⟨ps, hpo, hlen, hsh⟩ := h
  have hnops : ps.countP (fun e => e.isTerminal) = 0 :=
    List.countP_eq_zero.2 (fun e he => by simp [progressOnly_no_terminal hpo e he])
  rcases hsh with ⟨hd, hev⟩ | ⟨hd, t, ht, hev⟩
  · refine ⟨?_, ?_, ?_⟩
    · rw [hev, List.countP_cons]
      simp [hnops]
    · intro i e hi hterm
      exfalso
      have hmem : e ∈ job.events := mem_of_getElem hi
      rw [hev] at hmem
      rcases List.mem_cons.1 hmem with rfl | hmem2
      · exact Bool.noConfusion hterm
      · rw [progressOnly_no_terminal hpo e hmem2] at hterm
        exact Bool.noConfusion hterm
    · rw [hd, hev]
      constructor
      · intro hfalse
        exact Bool.noConfusion hfalse
      · rintro ⟨e, hmem, hterm⟩
        rcases List.mem_cons.1 hmem with rfl | hmem2
        · exact Bool.noConfusion hterm
        · rw [progressOnly_no_terminal hpo e hmem2] at hterm
          exact Bool.noConfusion hterm
  · refine ⟨?_, ?_, ?_⟩
    · rw [hev]
      show List.countP _ ((Event.start p.urls.length :: ps) ++ [t]) ≤ 1
      rw [List.countP_append, List.countP_cons]
      simp [hnops, List.countP_singleton, ht]
    · intro i e hi hterm
      rw [hev] at hi
      have hi2 : ((Event.start p.urls.length :: ps) ++ [t])[i]? = some e := hi
      rw [List.getElem?_append] at hi2
      split at hi2
      · exfalso
        have hmem : e ∈ Event.start p.urls.length :: ps := mem_of_getElem hi2
        rcases List.mem_cons.1 hmem with rfl | hmem2
        · exact Bool.noConfusion hterm
        · rw [progressOnly_no_terminal hpo e hmem2] at hterm
          exact Bool.noConfusion hterm
      · rename_i hge
        have hgi : (Event.start p.urls.length :: ps).length ≤ i := Nat.le_of_not_lt hge
        have hlen2 : i - (Event.start p.urls.length :: ps).length = 0 := by
          cases hz : i - (Event.start p.urls.length :: ps).length with
          | zero => rfl
          | succ m =>
              rw [hz] at hi2
              simp at hi2
        have hieq : i = (Event.start p.urls.length :: ps).length := by omega
        rw [hev, hieq]
        show (Event.start p.urls.length :: ps).length + 1 =
          ((Event.start p.urls.length :: ps) ++ [t]).length
        rw [List.length_append]
        rfl
    · rw [hd, hev]
      simp only [true_iff]
      exact ⟨t, by simp, ht⟩

theorem countSome_eq_length {l : List (Option CheckResult)}
    (h : ∀ idx < l.length, ∃ r, l[idx]? = some (some r)) : countSome l = l.length := by
  rw [countSome, List.countP_eq_length]
  intro a ha
  obtain ⟨n, hn⟩ := List.mem_iff_getElem?.1 ha
  have hlt : n < l.length := by
    by_contra hge
    rw [List.getElem?_eq_none (by omega)] at hn
    exact Option.noConfusion hn
  obtain ⟨r, hr⟩ := h n hlt
  rw [hn] at hr
  cases hr
  rfl

@[simp] theorem emittedUrls_nil : emittedUrls [] = [] := rfl

@[simp] theorem emittedUrls_batch (us : List String) (t : Nat) (rest : List SmEvent) :
    emittedUrls (SmEvent.batch us t :: rest) = us ++ emittedUrls rest := rfl

@[simp] theorem emittedUrls_crawlDone (t : Nat) (rest : List SmEvent) :
    emittedUrls (SmEvent.crawlDone t :: rest) = emittedUrls rest := rfl

@[simp] theorem emittedUrls_failed (m : String) (rest : List SmEvent) :
    emittedUrls (SmEvent.failed m :: rest) = emittedUrls rest := rfl

theorem emittedUrls_append (a b : List SmEvent) :
    emittedUrls (a ++ b) = emittedUrls a ++ emittedUrls b := by
  induction a with
  | nil => simp
  | cons e rest ih =>
      cases e <;> simp [ih]

theorem chunksOfFuel_flatten (n : Nat) : ∀ (fuel : Nat) (l : List α),
    l.length ≤ fuel → (chunksOfFuel n fuel l).flatten = l := by
  intro fuel
  induction fuel with
  | zero =>
      intro l hl
      cases l with
      | nil => rfl
      | cons x xs => simp at hl
  | succ fuel ih =>
      intro l hl
      cases l with
      | nil => rfl
      | cons x xs =>
          cases n with
          | zero => simp [chunksOfFuel]
          | succ m =>
              rw [chunksOfFuel, List.flatten_cons, ih ((x :: xs).drop (m + 1)) ?hdrop]
              · exact List.take_append_drop (m + 1) (x :: xs)
              case hdrop =>
                simp only [List.length_drop, List.length_cons] at hl ⊢
                omega

theorem chunksOf_flatten (n : Nat) (l : List α) : (chunksOf n l).flatten = l :=
  chunksOfFuel_flatten n l.length l (Nat.le_refl _)

theorem emitBatches_events (bs : List (List String)) (total : Nat) (evs : List SmEvent) :
    emittedUrls (emitBatches bs total evs).2 = emittedUrls evs ++ bs.flatten := by
  induction bs generalizing total evs with
  | nil => simp [emitBatches]
  | cons b rest ih =>
      rw [emitBatches, ih, List.flatten_cons, emittedUrls_append]
      simp

theorem emitBatches_total (bs : List (List String)) (total : Nat) (evs : List SmEvent) :
    (emitBatches bs total evs).1 = total + bs.flatten.length := by
  induction bs generalizing total evs with
  | nil => simp [emitBatches]
  | cons b rest ih =>
      rw [emitBatches, ih, List.flatten_cons, List.length_append]
      omega

theorem emitBatches_mem (bs : List (List String)) (total : Nat) (evs : List SmEvent) :
    ∀ e ∈ (emitBatches bs total evs).2, e ∈ evs ∨ ∃ us t, e = SmEvent.batch us t := by
  induction bs generalizing total evs with
  | nil =>
      intro e he
      exact Or.inl he
  | cons b rest ih =>
      intro e he
      rw [emitBatches] at he
      rcases ih _ _ e he with hin | hb
      · rcases List.mem_append.1 hin with h1 | h2
        · exact Or.inl h1
        · rcases List.mem_singleton.1 h2 with rfl
          exact Or.inr ⟨b, total + b.length, rfl⟩
      · exact Or.inr hb

theorem dedupNew_spec (locs : List String) : ∀ seen : List String,
    (dedupNew seen locs).Nodup ∧
    ∀ u ∈ dedupNew seen locs, u ∉ seen ∧ u ≠ "" := by
  induction locs with
  | nil =>
      intro seen
      simp [dedupNew]
  | cons loc rest ih =>
      intro seen
      rw [dedupNew]
      split
      · exact ih seen
      · rename_i hskip
        rw [Bool.or_eq_true, decide_eq_true_eq] at hskip
        push_neg at hskip
        have hloc_ne : loc ≠ "" := fun he => hskip.1 (by exact_mod_cast he)
        have hloc_nin : loc ∉ seen := by
          intro hmem
          exact hskip.2 (List.elem_eq_true_of_mem hmem)
        obtain ⟨hnd, hprop⟩ := ih (seen ++ [loc])
        refine ⟨List.nodup_cons.2 ⟨?_, hnd⟩, ?_⟩
        · intro hmem
          exact (hprop loc hmem).1 (List.mem_append.2 (Or.inr (List.mem_singleton.2 rfl)))
        · intro u hu
          rcases List.mem_cons.1 hu with rfl | hmem
          · exact ⟨hloc_nin, hloc_ne⟩
          · have := hprop u hmem
            exact ⟨fun hs => this.1 (List.mem_append.2 (Or.inl hs)), this.2⟩

theorem nodup_concat {α : Type} {l : List α} {a : α} (h : l.Nodup) (ha : a ∉ l) :
    (l ++ [a]).Nodup := by
  rw [List.nodup_append]
  exact ⟨h, List.nodup_singleton a, fun x hx hxa =>
    ha ((List.mem_singleton.1 hxa) ▸ hx)⟩

theorem crawlLoop_spec (oracle : String → SmFetch) (maxDepth : Nat) :
    ∀ (fuel : Nat) (st st1 : CrawlSt) (b : Bool), CInv oracle st →
      crawlLoop oracle maxDepth fuel st = (st1, b) → CrawlPost oracle st1 b := by
  intro fuel
  induction fuel with
  | zero =>
      intro st st1 b hinv heq
      rw [crawlLoop] at heq
      cases heq
      exact ⟨hinv.fetch_nodup, hinv.emitted_seen, hinv.seen_nodup,
        fun h => Bool.noConfusion h, fun _ => ⟨hinv.no_term, hinv.fetch_ok⟩⟩
  | succ fuel ih =>
      intro st st1 b hinv heq
      rw [crawlLoop] at heq
      cases hq : st.queue with
      | nil =>
          rw [hq] at heq
          simp only [] at heq
          cases heq
          refine ⟨hinv.fetch_nodup, ?_, hinv.seen_nodup, fun _ => Or.inl ?_,
            fun hfalse => Bool.noConfusion hfalse⟩
          · rw [emittedUrls_append]
            simp [hinv.emitted_seen]
          · refine ⟨st.events, rfl, hinv.no_term, ?_, hinv.fetch_ok⟩
            show st.total = _
            rw [emittedUrls_append]
            simp [hinv.emitted_seen, hinv.total_seen]
      | cons hd rest =>
          obtain ⟨url, depth⟩ := hd
          rw [hq] at heq
          simp only [] at heq
          by_cases hvis : st.visited.contains url = true
          · rw [if_pos hvis] at heq
            exact ih { st with queue := rest } st1 b
              { fetch_vis := hinv.fetch_vis
                fetch_nodup := hinv.fetch_nodup
                emitted_seen := hinv.emitted_seen
                seen_nodup := hinv.seen_nodup
                total_seen := hinv.total_seen
                no_term := hinv.no_term
                fetch_ok := hinv.fetch_ok } heq
          · rw [if_neg hvis] at heq
            have hnotmem : url ∉ st.fetches := by
              rw [hinv.fetch_vis]
              intro hmem
              exact hvis (List.elem_eq_true_of_mem hmem)
            cases horacle : oracle url with
            | fail msg =>
                rw [horacle] at heq
                simp only [] at heq
                cases heq
                refine ⟨nodup_concat hinv.fetch_nodup hnotmem, ?_, hinv.seen_nodup,
                  fun _ => Or.inr ?_, fun hfalse => Bool.noConfusion hfalse⟩
                · rw [emittedUrls_append]
                  simp [hinv.emitted_seen]
                · refine ⟨st.events, msg, rfl, hinv.no_term,
                    st.fetches, url, rfl, hinv.fetch_ok, ?_⟩
                  rw [horacle]
                  rfl
            | notOk status =>
                rw [horacle] at heq
                simp only [] at heq
                cases heq
                refine ⟨nodup_concat hinv.fetch_nodup hnotmem, ?_, hinv.seen_nodup,
                  fun _ => Or.inr ?_, fun hfalse => Bool.noConfusion hfalse⟩
                · rw [emittedUrls_append]
                  simp [hinv.emitted_seen]
                · refine ⟨st.events, "sitemap fetch failed: " ++ toString status, rfl,
                    hinv.no_term, st.fetches, url, rfl, hinv.fetch_ok, ?_⟩
                  rw [horacle]
                  rfl
            | okDoc urlLocs sitemapLocs =>
                rw [horacle] at heq
                simp only [] at heq
                have hded := dedupNew_spec urlLocs st.seen
                refine ih _ _ _ ?_ heq
                refine
                  { fetch_vis := by
                      show st.fetches ++ [url] = st.visited ++ [url]
                      rw [hinv.fetch_vis]
                    fetch_nodup := nodup_concat hinv.fetch_nodup hnotmem
                    emitted_seen := ?_
                    seen_nodup := ?_
                    total_seen := ?_
                    no_term := ?_
                    fetch_ok := ?_ }
                · show emittedUrls (emitBatches (chunksOf 200 (dedupNew st.seen urlLocs))
                      st.total st.events).2 = st.seen ++ dedupNew st.seen urlLocs
                  rw [emitBatches_events, chunksOf_flatten, hinv.emitted_seen]
                · show (st.seen ++ dedupNew st.seen urlLocs).Nodup
                  rw [List.nodup_append]
                  exact ⟨hinv.seen_nodup, hded.1, fun x hx hx2 => (hded.2 x hx2).1 hx⟩
                · show (emitBatches (chunksOf 200 (dedupNew st.seen urlLocs))
                      st.total st.events).1 = (st.seen ++ dedupNew st.seen urlLocs).length
                  rw [emitBatches_total, chunksOf_flatten, List.length_append, hinv.total_seen]
                · intro e he
                  rcases emitBatches_mem _ _ _ e he with hin | ⟨us, t, rfl⟩
                  · exact hinv.no_term e hin
                  · exact ⟨rfl, rfl⟩
                · intro u hu
                  rcases List.mem_append.1 hu with hin | hnew
                  · exact hinv.fetch_ok u hin
                  · rcases List.mem_singleton.1 hnew with rfl
                    rw [horacle]
                    rfl

theorem cinv_initCrawl (oracle : String → SmFetch) (root : String) :
    CInv oracle (initCrawl root) :=
  { fetch_vis := rfl
    fetch_nodup := List.nodup_nil
    emitted_seen := rfl
    seen_nodup := List.nodup_nil
    total_seen := rfl
    no_term := by simp [initCrawl]
    fetch_ok := by simp [initCrawl] }

/-! ## The claims -/

/-- C1 (counterexample): the claim says cancelling an already-terminal known
job answers `{ok:false}`; the code answers `{ok:true}` for every known job —
`/api/check-cancel` returns `res.json({ok:true})` unconditionally after the
registry lookup succeeds (src/server.js line 339), so on the concrete
terminal job `doneJob` the response is `ok:true`, not `ok:false`. -/
theorem claim_C1_counterexample :
    doneJob.done = true ∧ ¬((checkCancel (some doneJob)).1 = false) :=
  ⟨rfl, fun hf => Bool.noConfusion hf⟩

/-- C1 (amended): an unknown job id answers `{ok:false}`; any known job
answers `{ok:true}`, terminal or not.  Cancelling a known non-terminal job
marks it done and appends `failed{cancelled}`; cancelling an already-terminal
job only sets the cancellation flag and appends no event. -/
theorem claim_C1_cancel_endpoint :
    (checkCancel none).1 = false ∧
    (∀ j : JobState, (checkCancel (some j)).1 = true) ∧
    (∀ j : JobState, j.done = true →
        (checkCancel (some j)).2 = some { j with cancelled := true }) ∧
    (∀ j : JobState, j.done = false →
        (checkCancel (some j)).2 =
          some (pushEvent { j with cancelled := true, done := true }
            (Event.failed "cancelled"))) := by
  refine ⟨rfl, fun j => rfl, fun j hd => ?_, fun j hd => ?_⟩
  · show some (cancelJob j) = _
    simp [cancelJob, hd]
  · show some (cancelJob j) = _
    simp [cancelJob, hd]

theorem claim_C1_cancel_endpoint_witness :
    (checkCancel (some doneJob)).2 = some { doneJob with cancelled := true } ∧
    (checkCancel (some freshJob)).2 =
      some (pushEvent { freshJob with cancelled := true, done := true }
        (Event.failed "cancelled")) :=
  ⟨claim_C1_cancel_endpoint.2.2.1 doneJob rfl, claim_C1_cancel_endpoint.2.2.2 freshJob rfl⟩

/-- C2: in every reachable state of every interleaving, the job's event log
holds at most one terminal event; a terminal event can only sit at the very
end of the log; the done flag is set exactly when a terminal event is in the
log; and from any state whose log is terminal, every further interleaving
suffix leaves the log (and the done flag) unchanged — transition attempts
after the first terminal transition are no-ops. -/
theorem claim_C2_terminal_once (p : Params) (s : SysState) (h : Reachable p s) :
    s.job.events.countP (fun e => e.isTerminal) ≤ 1 ∧
    (∀ (i : Nat) (e : Event), s.job.events[i]? = some e → e.isTerminal = true →
        i + 1 = s.job.events.length) ∧
    (s.job.done = true ↔ ∃ e ∈ s.job.events, e.isTerminal = true) ∧
    (∀ s1, ReachFrom p s s1 → s.job.done = true →
        s1.job.events = s.job.events ∧ s1.job.done = true) := by
  have hinv := reachable_inv h
  have hcons := eventsShape_consequences hinv.events_shape
  exact ⟨hcons.1, hcons.2.1, hcons.2.2, fun s1 hr hd =>
    ⟨(frozen_after_done h hd hr).1, (frozen_after_done h hd hr).2.2.2⟩⟩

theorem claim_C2_terminal_once_witness :
    (initState pW).job.events.countP (fun e => e.isTerminal) ≤ 1 ∧
    (∀ (i : Nat) (e : Event), (initState pW).job.events[i]? = some e →
        e.isTerminal = true → i + 1 = (initState pW).job.events.length) ∧
    ((initState pW).job.done = true ↔
        ∃ e ∈ (initState pW).job.events, e.isTerminal = true) ∧
    (∀ s1, ReachFrom pW (initState pW) s1 → (initState pW).job.done = true →
        s1.job.events = (initState pW).job.events ∧ s1.job.done = true) :=
  claim_C2_terminal_once pW (initState pW) Reachable.init

/-- C3: in every reachable state, a non-empty result slot `i` holds exactly
the CheckResult produced for input URL `i` (its `url` field is the
normalised form of `urls[i]`), independent of worker completion order, and
across every step a written slot never changes again — each slot is written
at most once. -/
theorem claim_C3_positional (p : Params) (s : SysState) (h : Reachable p s) :
    (∀ (idx : Nat) (r : CheckResult), s.job.results[idx]? = some (some r) →
        r = p.resultFor idx ∧ r.url = normalizeUrl (p.urls.getD idx "")) ∧
    (∀ s1, Step p s s1 → ∀ (idx : Nat) (r : CheckResult),
        s.job.results[idx]? = some (some r) → s1.job.results[idx]? = some (some r)) := by
  have hinv := reachable_inv h
  refine ⟨fun idx r hr => ⟨hinv.slot_content idx r hr, ?_⟩,
    fun s1 hstep => step_slots_mono hinv hstep⟩
  rw [hinv.slot_content idx r hr, Params.resultFor, checkUrl_url]

theorem claim_C3_positional_witness :
    (∀ (idx : Nat) (r : CheckResult),
        (initState pW).job.results[idx]? = some (some r) →
        r = pW.resultFor idx ∧ r.url = normalizeUrl (pW.urls.getD idx "")) ∧
    (∀ s1, Step pW (initState pW) s1 → ∀ (idx : Nat) (r : CheckResult),
        (initState pW).job.results[idx]? = some (some r) →
        s1.job.results[idx]? = some (some r)) :=
  claim_C3_positional pW (initState pW) Reachable.init

/-- C4: in every reachable state the results array length equals the input
URL count, `processed` equals the number of non-empty result slots and never
exceeds the total; `processed` is non-decreasing across every step; and a
job that finished without cancellation has `processed = total` with every
slot non-empty. -/
theorem claim_C4_counters (p : Params) (s : SysState) (h : Reachable p s) :
    s.job.results.length = p.urls.length ∧
    s.job.total = p.urls.length ∧
    s.job.processed = countSome s.job.results ∧
    s.job.processed ≤ p.urls.length ∧
    (∀ s1, Step p s s1 → s.job.processed ≤ s1.job.processed) ∧
    (s.job.done = true → s.job.cancelled = false →
        s.job.processed = p.urls.length ∧
        ∀ idx < p.urls.length, ∃ r, s.job.results[idx]? = some (some r)) := by
  have hinv := reachable_inv h
  refine ⟨hinv.len_results, hinv.total_eq, hinv.processed_count, ?_,
    fun s1 hstep => step_processed_mono hstep, ?_⟩
  · rw [hinv.processed_count, ← hinv.len_results]
    exact countSome_le_length _
  · intro hd hc
    rcases hinv.done_quiesced hd with hcc | ⟨hfin, hall⟩
    · rw [hc] at hcc
      exact Bool.noConfusion hcc
    · have hpos : 0 < s.workers.length := by
        rw [hinv.workers_len]
        exact Nat.lt_of_lt_of_le Nat.one_pos (Nat.le_max_left 1 _)
      have h0 : s.workers[0]? = some s.workers[0] := List.getElem?_eq_getElem hpos
      have hex : s.workers[0] = WorkerPC.exited := hall _ (List.getElem_mem hpos)
      have hcur : p.urls.length < s.cursor :=
        hinv.exited_cursor hc ⟨0, by rw [h0, hex]⟩
      have hslots : ∀ idx < p.urls.length, ∃ r, s.job.results[idx]? = some (some r) := by
        intro idx hlt
        rcases hinv.coverage hc idx (by omega) hlt with hl | ⟨k, w, hw, hh⟩
        · exact hl
        · have hwe := hall w (mem_of_getElem hw)
          rw [hwe] at hh
          exact absurd hh (by simp)
      have hlen2 : ∀ idx < s.job.results.length, ∃ r, s.job.results[idx]? = some (some r) := by
        intro idx hlt
        rw [hinv.len_results] at hlt
        exact hslots idx hlt
      exact ⟨by rw [hinv.processed_count, countSome_eq_length hlen2, hinv.len_results],
        hslots⟩

theorem claim_C4_counters_witness :
    (initState pW).job.results.length = pW.urls.length ∧
    (initState pW).job.total = pW.urls.length ∧
    (initState pW).job.processed = countSome (initState pW).job.results ∧
    (initState pW).job.processed ≤ pW.urls.length ∧
    (∀ s1, Step pW (initState pW) s1 →
        (initState pW).job.processed ≤ s1.job.processed) ∧
    ((initState pW).job.done = true → (initState pW).job.cancelled = false →
        (initState pW).job.processed = pW.urls.length ∧
        ∀ idx < pW.urls.length, ∃ r, (initState pW).job.results[idx]? = some (some r)) :=
  claim_C4_counters pW (initState pW) Reachable.init

/-- C5: attaching an observer first replays the entire event log in order
(its received list becomes exactly the log, which before a terminal event is
the `start` event followed by one `progress` event per delivered result);
the observer is added to the fan-out set exactly when the job is not yet
terminal, and is closed without being added when it is; every live observer
has received exactly the log, and every observer closed by the system (not
by its own disconnect) holds exactly the full log of a job that is done —
so all such final event sequences are identical. -/
theorem claim_C5_replay (p : Params) (s : SysState) (h : Reachable p s) :
    (∀ oid : Nat,
        (attachSys s oid).observers = s.observers ++
          [(oid, { received := s.job.events, closed := s.job.done, detached := false })] ∧
        (s.job.done = false → (attachSys s oid).job.clients = s.job.clients ++ [oid]) ∧
        (s.job.done = true → (attachSys s oid).job.clients = s.job.clients)) ∧
    (s.job.done = false → ∃ ps, progressOnly ps ∧ ps.length = s.job.processed ∧
        s.job.events = Event.start p.urls.length :: ps) ∧
    (∀ io ∈ s.observers, io.1 ∈ s.job.clients →
        io.2.received = s.job.events ∧ io.2.closed = false) ∧
    (∀ io ∈ s.observers, io.2.closed = true → io.2.detached = false →
        io.2.received = s.job.events ∧ s.job.done = true) := by
  have hinv := reachable_inv h
  refine ⟨?_, ?_, hinv.obs_client, ?_⟩
  · intro oid
    by_cases hd : s.job.done = true
    · rw [attachSys_done hd, hd]
      exact ⟨rfl, fun hf => Bool.noConfusion hf, fun _ => rfl⟩
    · replace hd : s.job.done = false := by
        cases hh : s.job.done
        · rfl
        · exact absurd hh hd
      rw [attachSys_run hd, hd]
      exact ⟨rfl, fun _ => rfl, fun hf => Bool.noConfusion hf⟩
  · intro hd
    obtain ⟨ps, hpo, hlen, hsh⟩ := hinv.events_shape
    rcases hsh with ⟨_, hev⟩ | ⟨hdt, _⟩
    · exact ⟨ps, hpo, hlen, hev⟩
    · rw [hd] at hdt
      exact Bool.noConfusion hdt
  · intro io hio hcl hdet
    rcases hinv.obs_closed io hio hcl with hdt | hok
    · rw [hdet] at hdt
      exact Bool.noConfusion hdt
    · exact hok

theorem claim_C5_replay_witness :
    (∀ oid : Nat,
        (attachSys (initState pW) oid).observers = (initState pW).observers ++
          [(oid, { received := (initState pW).job.events,
                   closed := (initState pW).job.done, detached := false })] ∧
        ((initState pW).job.done = false →
          (attachSys (initState pW) oid).job.clients =
            (initState pW).job.clients ++ [oid]) ∧
        ((initState pW).job.done = true →
          (attachSys (initState pW) oid).job.clients = (initState pW).job.clients)) ∧
    ((initState pW).job.done = false → ∃ ps, progressOnly ps ∧
        ps.length = (initState pW).job.processed ∧
        (initState pW).job.events = Event.start pW.urls.length :: ps) ∧
    (∀ io ∈ (initState pW).observers, io.1 ∈ (initState pW).job.clients →
        io.2.received = (initState pW).job.events ∧ io.2.closed = false) ∧
    (∀ io ∈ (initState pW).observers, io.2.closed = true → io.2.detached = false →
        io.2.received = (initState pW).job.events ∧ (initState pW).job.done = true) :=
  claim_C5_replay pW (initState pW) Reachable.init

/-- C6: a cancel request on a job that is not yet terminal immediately
appends `failed{cancelled}` as the final event, marks the job done and
cancelled, and touches neither the result slots nor the processed counter;
and once a job is cancelled, every further interleaving suffix leaves the
log, the result slots and the processed counter unchanged — no `progress`
event is emitted, and results completing after cancellation are discarded. -/
theorem claim_C6_cancel_discard (p : Params) (s : SysState) (h : Reachable p s) :
    (s.job.done = false →
        (cancelSys s).job.events = s.job.events ++ [Event.failed "cancelled"] ∧
        (cancelSys s).job.done = true ∧ (cancelSys s).job.cancelled = true ∧
        (cancelSys s).job.results = s.job.results ∧
        (cancelSys s).job.processed = s.job.processed) ∧
    (s.job.cancelled = true → ∀ s1, ReachFrom p s s1 →
        s1.job.events = s.job.events ∧ s1.job.results = s.job.results ∧
        s1.job.processed = s.job.processed) := by
  have hinv := reachable_inv h
  constructor
  · intro hd
    rw [cancelSys_run hd]
    exact ⟨rfl, rfl, rfl, rfl, rfl⟩
  · intro hc s1 hr
    have hd := hinv.cancel_done hc
    have hfr := frozen_after_done h hd hr
    exact ⟨hfr.1, hfr.2.1, hfr.2.2.1⟩

theorem claim_C6_cancel_discard_witness :
    ((initState pW).job.done = false →
        (cancelSys (initState pW)).job.events =
          (initState pW).job.events ++ [Event.failed "cancelled"] ∧
        (cancelSys (initState pW)).job.done = true ∧
        (cancelSys (initState pW)).job.cancelled = true ∧
        (cancelSys (initState pW)).job.results = (initState pW).job.results ∧
        (cancelSys (initState pW)).job.processed = (initState pW).job.processed) ∧
    ((initState pW).job.cancelled = true → ∀ s1, ReachFrom pW (initState pW) s1 →
        s1.job.events = (initState pW).job.events ∧
        s1.job.results = (initState pW).job.results ∧
        s1.job.processed = (initState pW).job.processed) :=
  claim_C6_cancel_discard pW (initState pW) Reachable.init

/-- C7: on every crawl run (terminated or fuel-truncated): no sitemap
document URL is fetched twice, no page URL occurs twice across or within the
emitted batches, and whenever the log ends in `done{t}`, `t` equals the
number of (necessarily distinct) page URLs emitted across all batches. -/
theorem claim_C7_crawl_dedup (oracle : String → SmFetch) (maxDepth fuel : Nat)
    (root : String) (st1 : CrawlSt) (b : Bool)
    (hrun : crawlLoop oracle maxDepth fuel (initCrawl root) = (st1, b)) :
    st1.fetches.Nodup ∧ (emittedUrls st1.events).Nodup ∧
    (∀ t, st1.events.getLast? = some (SmEvent.crawlDone t) →
        t = (emittedUrls st1.events).length) := by
  have hpost := crawlLoop_spec oracle maxDepth fuel (initCrawl root) st1 b
    (cinv_initCrawl oracle root) hrun
  obtain ⟨hfn, hes, hsn, hterm, hrunning⟩ := hpost
  refine ⟨hfn, by rw [hes]; exact hsn, ?_⟩
  intro t hdone
  cases b with
  | false =>
      have hmem := List.mem_of_mem_getLast? hdone
      have := (hrunning rfl).1 _ hmem
      simp [isDoneEv] at this
  | true =>
      rcases hterm rfl with ⟨evs, hev, hnt, htot, hok⟩ | ⟨evs, msg, hev, hnt, _⟩
      · rw [hev, List.getLast?_concat] at hdone
        cases hdone
        exact htot
      · rw [hev, List.getLast?_concat] at hdone
        exact absurd hdone (by simp)

theorem claim_C7_crawl_dedup_witness :
    (crawlLoop smOracleW 5 10 (initCrawl "r")).1.fetches.Nodup ∧
    (emittedUrls (crawlLoop smOracleW 5 10 (initCrawl "r")).1.events).Nodup ∧
    (∀ t, (crawlLoop smOracleW 5 10 (initCrawl "r")).1.events.getLast? =
        some (SmEvent.crawlDone t) →
      t = (emittedUrls (crawlLoop smOracleW 5 10 (initCrawl "r")).1.events).length) :=
  claim_C7_crawl_dedup smOracleW 5 10 "r"
    (crawlLoop smOracleW 5 10 (initCrawl "r")).1
    (crawlLoop smOracleW 5 10 (initCrawl "r")).2 rfl

/-- C8: on every crawl run in which some fetched sitemap document failed
(thrown fetch error or non-ok status), the crawl aborted at the first such
document: the log contains exactly one `failed` event, sitting at the end,
no `done` event at all, and the failing document is the last fetch performed
— every earlier fetch succeeded and nothing was fetched afterwards. -/
theorem claim_C8_crawl_failfast (oracle : String → SmFetch) (maxDepth fuel : Nat)
    (root : String) (st1 : CrawlSt) (b : Bool)
    (hrun : crawlLoop oracle maxDepth fuel (initCrawl root) = (st1, b))
    (hfail : ∃ u ∈ st1.fetches, smFails (oracle u) = true) :
    st1.events.countP isFailedEv = 1 ∧
    (∀ e ∈ st1.events, isDoneEv e = false) ∧
    (∃ evs msg, st1.events = evs ++ [SmEvent.failed msg]) ∧
    (∃ pre u, st1.fetches = pre ++ [u] ∧ (∀ v ∈ pre, smFails (oracle v) = false) ∧
        smFails (oracle u) = true) := by
  have hpost := crawlLoop_spec oracle maxDepth fuel (initCrawl root) st1 b
    (cinv_initCrawl oracle root) hrun
  obtain ⟨hfn, hes, hsn, hterm, hrunning⟩ := hpost
  cases b with
  | false =>
      obtain ⟨u, hu, hf⟩ := hfail
      rw [(hrunning rfl).2 u hu] at hf
      exact Bool.noConfusion hf
  | true =>
  rcases hterm rfl with ⟨evs, hev, hnt, htot, hok⟩ | ⟨evs, msg, hev, hnt, pre, u, hfe, hpre, hu⟩
  · obtain ⟨u, hu, hf⟩ := hfail
    rw [hok u hu] at hf
    exact Bool.noConfusion hf
  · refine ⟨?_, ?_, ⟨evs, msg, hev⟩, ⟨pre, u, hfe, hpre, hu⟩⟩
    · rw [hev, List.countP_append, List.countP_eq_zero.2 (fun e he => by
        simp [(hnt e he).1])]
      rfl
    · intro e he
      rw [hev] at he
      rcases List.mem_append.1 he with h1 | h2
      · exact (hnt e h1).2
      · rcases List.mem_singleton.1 h2 with rfl
        rfl

theorem claim_C8_crawl_failfast_witness :
    (crawlLoop smOracleW2 5 10 (initCrawl "r")).1.events.countP isFailedEv = 1 ∧
    (∀ e ∈ (crawlLoop smOracleW2 5 10 (initCrawl "r")).1.events, isDoneEv e = false) ∧
    (∃ evs msg, (crawlLoop smOracleW2 5 10 (initCrawl "r")).1.events =
        evs ++ [SmEvent.failed msg]) ∧
    (∃ pre u, (crawlLoop smOracleW2 5 10 (initCrawl "r")).1.fetches = pre ++ [u] ∧
        (∀ v ∈ pre, smFails (smOracleW2 v) = false) ∧ smFails (smOracleW2 u) = true) :=
  claim_C8_crawl_failfast smOracleW2 5 10 "r" _ true rfl ⟨"s", by decide, rfl⟩

/-- C9: a per-URL failure is recorded in that URL's CheckResult: a timeout
yields error `timeout`, a network error yields its message, and a non-HTML
content type yields the non-html error while also carrying the HTTP status
code; and such a result does not abort the worker — delivering any result,
errored or not, is a legal step after which that worker is back at its loop
head to claim the next unclaimed index. -/
theorem claim_C9_per_url_failure (p : Params) :
    (∀ (u : String) (e : Nat),
        (checkUrl u FetchOutcome.timeout e).error = some "timeout") ∧
    (∀ (u m : String) (e : Nat),
        (checkUrl u (FetchOutcome.netError m) e).error = some m) ∧
    (∀ (u ct : String) (st : Nat) (okf : Bool) (pg : PageData) (e : Nat),
        strIncludes ct "text/html" = false →
        (checkUrl u (FetchOutcome.response st okf ct pg) e).error =
          some ("non-html content-type: " ++ ct) ∧
        (checkUrl u (FetchOutcome.response st okf ct pg) e).status = some st) ∧
    (∀ (s : SysState) (k idx : Nat) (r : CheckResult),
        s.workers[k]? = some (WorkerPC.delivering idx r) → s.job.cancelled = false →
        Step p s (deliverSys s k idx r) ∧
        (deliverSys s k idx r).workers[k]? = some WorkerPC.idle) := by
  refine ⟨fun u e => rfl, fun u m e => rfl,
    fun u ct st okf pg e hct => ?_, fun s k idx r hw hc => ?_⟩
  · constructor
    · simp [checkUrl, hct]
    · simp [checkUrl, hct]
  · refine ⟨Step.deliverStep k idx r hw hc, ?_⟩
    rw [deliverSys_workers, getElem?_set_of_getElem? hw k, if_pos rfl]

theorem claim_C9_per_url_failure_witness :
    strIncludes "application/json" "text/html" = false ∧
    (checkUrl "http://x" (FetchOutcome.response 200 true "application/json"
        { titleText := "", metaName := none, metaOg := none, canonicalHref := none,
          h1Count := 0, h1First := "" }) 5).error =
      some ("non-html content-type: " ++ "application/json") ∧
    (checkUrl "http://x" (FetchOutcome.response 200 true "application/json"
        { titleText := "", metaName := none, metaOg := none, canonicalHref := none,
          h1Count := 0, h1First := "" }) 5).status = some 200 ∧
    Step pW s9 (deliverSys s9 0 0 rTimeout) ∧
    (deliverSys s9 0 0 rTimeout).workers[0]? = some WorkerPC.idle := by
  have h3 := (claim_C9_per_url_failure pW).2.2.1 "http://x" "application/json" 200 true
    { titleText := "", metaName := none, metaOg := none, canonicalHref := none,
      h1Count := 0, h1First := "" } 5 (by decide)
  have h4 := (claim_C9_per_url_failure pW).2.2.2 s9 0 0 rTimeout rfl rfl
  exact ⟨by decide, h3.1, h3.2, h4.1, h4.2⟩

/-- C10: a sitemap-stream request whose `url` query parameter is empty
(after trimming) or fails to parse as a URL, or parses with a protocol other
than http/https, emits exactly one `failed` event, performs no fetch at all,
and ends the stream — no `batch` and no `done` event. -/
theorem claim_C10_sitemap_validation (rawQuery : Option String)
    (parseURL : String → Option ParsedURL) (oracle : String → SmFetch)
    (maxDepth fuel : Nat)
    (hbad : ((rawQuery.getD "").trim = "") ∨
        parseURL ((rawQuery.getD "").trim) = none ∨
        (∃ pu, parseURL ((rawQuery.getD "").trim) = some pu ∧
            pu.protocol ≠ "http:" ∧ pu.protocol ≠ "https:")) :
    ∃ msg, (sitemapStream rawQuery parseURL oracle maxDepth fuel).1.events =
        [SmEvent.failed msg] ∧
      (sitemapStream rawQuery parseURL oracle maxDepth fuel).1.fetches = [] ∧
      (sitemapStream rawQuery parseURL oracle maxDepth fuel).2 = true := by
  by_cases hemp : (rawQuery.getD "").trim = ""
  · refine ⟨"sitemap url required", ?_, ?_, ?_⟩ <;> simp [sitemapStream, hemp]
  · rcases hbad with h | hnone | ⟨pu, hsome, hp1, hp2⟩
    · exact absurd h hemp
    · refine ⟨"invalid sitemap url", ?_, ?_, ?_⟩ <;> simp [sitemapStream, hemp, hnone]
    · refine ⟨"invalid sitemap url", ?_, ?_, ?_⟩ <;>
        simp [sitemapStream, hemp, hsome, hp1, hp2]

theorem claim_C10_sitemap_validation_witness :
    ∃ msg, (sitemapStream (some "notaurl") (fun _ => none)
        (fun _ => SmFetch.fail "x") 3 3).1.events = [SmEvent.failed msg] ∧
      (sitemapStream (some "notaurl") (fun _ => none)
        (fun _ => SmFetch.fail "x") 3 3).1.fetches = [] ∧
      (sitemapStream (some "notaurl") (fun _ => none)
        (fun _ => SmFetch.fail "x") 3 3).2 = true :=
  claim_C10_sitemap_validation (some "notaurl") (fun _ => none)
    (fun _ => SmFetch.fail "x") 3 3 (Or.inr (Or.inl rfl))

end Seoscan
